import Mathlib

set_option maxRecDepth 10000

namespace Gokoo

/-! Shallow embedding of the gokoo cuckoo filter (package gokoo).
Bytes are modelled as `Nat` (each in 0..255 in practice), byte slices as
`List Nat`, Go booleans as `Bool`, Go non-negative machine integers as `Nat`
with explicit `% 2^32` where 32-bit overflow matters.  The global `math/rand`
source is modelled as an explicit list of non-negative draws threaded through
`Insert`. -/

/-- Reduction of a machine word to its low 32 bits, as an explicit remainder. -/
def u32 (n : Nat) : Nat := n % 4294967296

/-- Left rotation of a 32-bit value `x` by `r` bits (`0 < r < 32`, `x < 2^32`). -/
def rotl32 (x r : Nat) : Nat := u32 (x * 2 ^ r + x / 2 ^ (32 - r))

/-- Semantics of Go `copy(dst, src)`: the first `min |dst| |src|` bytes of `dst`
are replaced by those of `src`; the result is the new contents of `dst`. -/
def goCopy (dst src : List Nat) : List Nat :=
  src.take (min dst.length src.length) ++ dst.drop (min dst.length src.length)

/-- Semantics of the Go slice expression `l[b : b+n]` (in bounds). -/
def getRange (l : List Nat) (b n : Nat) : List Nat := (l.drop b).take n

/-- Overwriting `l[b : b + |src|]` with `src` (in bounds this is Go
`copy(l[b:e], src)` with `e - b = |src|`). -/
def setRange (l : List Nat) (b : Nat) (src : List Nat) : List Nat :=
  l.take b ++ src ++ l.drop (b + src.length)

/-! ### The xxhash32 checksum
`secondaryIndex` calls `xxhash.Checksum32`, the vendored Go implementation of
the reference XXH32 algorithm with seed 0; it is modelled here byte for byte
(prime constants, stripe accumulation, 4-byte tail, byte tail, avalanche). -/

def xxP1 : Nat := 2654435761
def xxP2 : Nat := 2246822519
def xxP3 : Nat := 3266489917
def xxP4 : Nat := 668265263
def xxP5 : Nat := 374761393

/-- Little-endian 32-bit value of four bytes. -/
def le32chunk (a b c d : Nat) : Nat := a + 256 * b + 65536 * c + 16777216 * d

/-- One XXH32 accumulator round. -/
def xxhRound (acc input : Nat) : Nat :=
  u32 (rotl32 (u32 (acc + u32 (input * xxP2))) 13 * xxP1)

/-- Consume 16-byte stripes, updating the four lane accumulators. -/
def xxhStripes : Nat → Nat → Nat → Nat → List Nat → Nat × Nat × Nat × Nat × List Nat
  | v1, v2, v3, v4,
    b0 :: b1 :: b2 :: b3 :: b4 :: b5 :: b6 :: b7 ::
    b8 :: b9 :: b10 :: b11 :: b12 :: b13 :: b14 :: b15 :: rest =>
      xxhStripes (xxhRound v1 (le32chunk b0 b1 b2 b3)) (xxhRound v2 (le32chunk b4 b5 b6 b7))
        (xxhRound v3 (le32chunk b8 b9 b10 b11)) (xxhRound v4 (le32chunk b12 b13 b14 b15)) rest
  | v1, v2, v3, v4, l => (v1, v2, v3, v4, l)

/-- Consume remaining 4-byte words after the stripes. -/
def xxhTail4 : Nat → List Nat → Nat × List Nat
  | h, a :: b :: c :: d :: rest =>
      xxhTail4 (u32 (rotl32 (u32 (h + u32 (le32chunk a b c d * xxP3))) 17 * xxP4)) rest
  | h, l => (h, l)

/-- Consume the final single bytes. -/
def xxhBytes : Nat → List Nat → Nat
  | h, [] => h
  | h, b :: rest => xxhBytes (u32 (rotl32 (u32 (h + u32 (b * xxP5))) 11 * xxP1)) rest

/-- The XXH32 final avalanche. -/
def xxhAvalanche (h0 : Nat) : Nat :=
  let h1 := u32 (Nat.xor h0 (h0 / 32768) * xxP2)
  let h2 := u32 (Nat.xor h1 (h1 / 8192) * xxP3)
  Nat.xor h2 (h2 / 65536)

/-- XXH32 with seed 0 over a byte sequence: the model of `xxhash.Checksum32`. -/
def xxh32 (input : List Nat) : Nat :=
  let len := input.length
  let start :=
    if 16 ≤ len then
      let s := xxhStripes (u32 (xxP1 + xxP2)) xxP2 0 (u32 (4294967296 - xxP4)) input
      (u32 (rotl32 s.1 1 + rotl32 s.2.1 7 + rotl32 s.2.2.1 12 + rotl32 s.2.2.2.1 18),
        s.2.2.2.2)
    else (xxP5, input)
  let h1 := u32 (start.1 + len)
  let t := xxhTail4 h1 start.2
  xxhAvalanche (xxhBytes t.1 t.2)

/-! ### The table and its operations -/

/-- Shallow embedding of the Go struct `GokooTable`.  The `buf` field of the
source (a scratch `*bytes.Buffer`) is never read or written by any operation
and is omitted.  `occupied` and `buckets` are the two flat storage arrays. -/
structure GokooTable where
  rebuild : Bool
  nBuckets : Nat
  nSlots : Nat
  nBytes : Nat
  nTries : Nat
  iBytes : Nat
  occupied : List Bool
  buckets : List Nat
  hash : List Nat → List Nat

/-- Model of `DummyHash`: an 8-byte output filled from the first input bytes
(`output := make([]byte, 8); copy(output, input)`). -/
def dummyHash (input : List Nat) : List Nat := goCopy (List.replicate 8 0) input

/-- Search step for `ceilSqrt`: the least `m` (starting from the given one,
with the given fuel) whose square reaches `n`. -/
def ceilSqrtAux (n : Nat) : Nat → Nat → Nat
  | 0, m => m
  | fuel + 1, m => if n ≤ m * m then m else ceilSqrtAux n fuel (m + 1)

/-- Integer ceiling square root (the least `m` with `n ≤ m*m`): the exact
value of `int(math.Ceil(math.Sqrt(float64 n)))` for every table size at which
the `float64` computation is exact (all realistic `n`). -/
def ceilSqrt (n : Nat) : Nat := ceilSqrtAux n n 0

/-- Model of `New`.  The Go functional options just overwrite the five
configuration fields and the hash before validation, so the model takes the
resulting field values directly (the source defaults are `Sha256Hash`, 8
buckets, 4 slots, 1 fingerprint byte, 512 tries).  Returns `none` exactly on
the configuration-error path, in which case no storage is built. -/
def New (hash : List Nat → List Nat) (nBuckets nSlots nBytes nTries : Nat) :
    Option GokooTable :=
  let iBytes := ceilSqrt nBuckets
  let hashLen := (hash []).length
  if hashLen < iBytes + nBytes then none
  else
    some { rebuild := false, nBuckets := nBuckets, nSlots := nSlots, nBytes := nBytes,
           nTries := nTries, iBytes := iBytes,
           occupied := List.replicate (nBuckets * nSlots) false,
           buckets := List.replicate (nBuckets * nSlots * nBytes) 0,
           hash := hash }

/-- Model of `fingerPrint`: the slice `hash[iBytes : iBytes+nBytes]`. -/
def fingerPrint (gt : GokooTable) (h : List Nat) : List Nat :=
  getRange h gt.iBytes gt.nBytes

/-- Little-endian `Uint32` of exactly four bytes (`binary.LittleEndian.Uint32`). -/
def le32 : List Nat → Nat
  | [a, b, c, d] => le32chunk a b c d
  | _ => 0

/-- Model of `primaryIndex`: a 4-byte zero slice receives `hash[0:iBytes]` via
`copy` (so at most 4 bytes are used), is read as a little-endian `Uint32` and
reduced modulo the bucket count. -/
def primaryIndex (gt : GokooTable) (h : List Nat) : Nat :=
  le32 (goCopy (List.replicate 4 0) (getRange h 0 gt.iBytes)) % gt.nBuckets

/-- Model of `secondaryIndex`: XOR the index with the xxhash of the
fingerprint, then reduce modulo the bucket count. -/
def secondaryIndex (gt : GokooTable) (i1 : Nat) (f : List Nat) : Nat :=
  (i1 ^^^ xxh32 f) % gt.nBuckets

/-- Model of `access`: occupancy index and byte range of slot `n` of bucket `i`. -/
def access (gt : GokooTable) (i n : Nat) : Nat × Nat × Nat :=
  let index := i * gt.nSlots + n
  let begn := index * gt.nBytes
  (index, begn, begn + gt.nBytes)

/-- The occupancy read `occupied[o]` for global slot `o` (the first component
of `access`): the Go code panics out of bounds, the model defaults to false;
in-bounds equivalence is the subject of the safety claim. -/
def slotOcc (gt : GokooTable) (o : Nat) : Bool := gt.occupied.getD o false

/-- The fingerprint read `buckets[b:e]` for global slot `o`, with `b`, `e` the
byte range `access` computes. -/
def slotBytes (gt : GokooTable) (o : Nat) : List Nat :=
  getRange gt.buckets (o * gt.nBytes) gt.nBytes

/-- Scanning loop of `add`, from slot `n` with `rem` slots left to inspect. -/
def addAux (gt : GokooTable) (i : Nat) (f : List Nat) : Nat → Nat → Bool × GokooTable
  | _, 0 => (false, gt)
  | n, rem + 1 =>
      let o := i * gt.nSlots + n
      if slotOcc gt o then addAux gt i f (n + 1) rem
      else
        (true, { gt with occupied := gt.occupied.set o true,
                         buckets := setRange gt.buckets (o * gt.nBytes) (f.take gt.nBytes) })

/-- Model of `add`: place `f` in the first unoccupied slot of bucket `i`. -/
def add (gt : GokooTable) (i : Nat) (f : List Nat) : Bool × GokooTable :=
  addAux gt i f 0 gt.nSlots

/-- Scanning loop of `has`. -/
def hasAux (gt : GokooTable) (i : Nat) (f : List Nat) : Nat → Nat → Bool
  | _, 0 => false
  | n, rem + 1 =>
      let o := i * gt.nSlots + n
      if slotOcc gt o then
        if slotBytes gt o = f then true
        else hasAux gt i f (n + 1) rem
      else hasAux gt i f (n + 1) rem

/-- Model of `has`: some occupied slot of bucket `i` holds exactly `f`. -/
def has (gt : GokooTable) (i : Nat) (f : List Nat) : Bool :=
  hasAux gt i f 0 gt.nSlots

/-- Scanning loop of `del`. -/
def delAux (gt : GokooTable) (i : Nat) (f : List Nat) : Nat → Nat → Bool × GokooTable
  | _, 0 => (false, gt)
  | n, rem + 1 =>
      let o := i * gt.nSlots + n
      if slotOcc gt o then
        if slotBytes gt o = f then
          (true, { gt with occupied := gt.occupied.set o false })
        else delAux gt i f (n + 1) rem
      else delAux gt i f (n + 1) rem

/-- Model of `del`: clear the first occupied slot of bucket `i` holding `f`
(only the occupancy flag is cleared; the bytes stay). -/
def del (gt : GokooTable) (i : Nat) (f : List Nat) : Bool × GokooTable :=
  delAux gt i f 0 gt.nSlots

/-- Model of `evict`: overwrite the slot `r % nSlots` of bucket `i` with `f`
and return the previous contents (copied into a fresh buffer of length `|f|`,
as `make([]byte, len(f)); copy(fOld, buckets[b:e])` does). -/
def evict (gt : GokooTable) (i : Nat) (f : List Nat) (r : Nat) : List Nat × GokooTable :=
  let n := r % gt.nSlots
  let o := i * gt.nSlots + n
  let fOld := goCopy (List.replicate f.length 0) (slotBytes gt o)
  (fOld, { gt with buckets := setRange gt.buckets (o * gt.nBytes) (f.take gt.nBytes) })

/-- The eviction loop of `Insert`: at each step evict into the current bucket,
carry the displaced fingerprint to its alternate bucket and try to add it
there.  `rands` supplies the successive `rand.Int()` draws. -/
def insertLoop (gt : GokooTable) (i1 : Nat) (f : List Nat) (rands : List Nat) :
    Nat → Bool × GokooTable
  | 0 => (false, gt)
  | fuel + 1 =>
      let ev := evict gt i1 f (rands.headD 0)
      let i2 := secondaryIndex ev.2 i1 ev.1
      let a := add ev.2 i2 ev.1
      if a.1 then (true, a.2) else insertLoop a.2 i2 ev.1 rands.tail fuel

/-- Model of `Insert`.  The item is its byte representation; `rands` is the
stream of `rand.Int()` results (one coin flip if both direct adds fail, then
one draw per eviction). -/
def Insert (gt : GokooTable) (item rands : List Nat) : Bool × GokooTable :=
  let h := gt.hash item
  let f := fingerPrint gt h
  let i1 := primaryIndex gt h
  let a1 := add gt i1 f
  if a1.1 then (true, a1.2)
  else
    let i2 := secondaryIndex a1.2 i1 f
    let a2 := add a1.2 i2 f
    if a2.1 then (true, a2.2)
    else
      let start := if rands.headD 0 % 2 = 1 then i2 else i1
      insertLoop a2.2 start f rands.tail a2.2.nTries

/-- Model of `Lookup`: check both candidate buckets for the fingerprint. -/
def Lookup (gt : GokooTable) (item : List Nat) : Bool :=
  let h := gt.hash item
  let f := fingerPrint gt h
  let i1 := primaryIndex gt h
  if has gt i1 f then true
  else has gt (secondaryIndex gt i1 f) f

/-- Model of `Remove`: try to delete from the primary bucket (derived from the
digest), then from the secondary bucket. -/
def Remove (gt : GokooTable) (item : List Nat) : Bool × GokooTable :=
  let h := gt.hash item
  let f := fingerPrint gt h
  let i1 := primaryIndex gt h
  let d1 := del gt i1 f
  if d1.1 then (true, d1.2)
  else del d1.2 (secondaryIndex d1.2 i1 f) f

/-! ### Observations on table states -/

/-- Number of occupied slots (anywhere) holding exactly the bytes `f`. -/
def totalCount (gt : GokooTable) (f : List Nat) : Nat :=
  List.countP (fun o => slotOcc gt o && decide (slotBytes gt o = f))
    (List.range gt.occupied.length)

/-- Number of occupied slots of bucket `i` holding exactly the bytes `f`. -/
def fpCount (gt : GokooTable) (i : Nat) (f : List Nat) : Nat :=
  List.countP
    (fun n => slotOcc gt (i * gt.nSlots + n) && decide (slotBytes gt (i * gt.nSlots + n) = f))
    (List.range gt.nSlots)

/-- Number of occupied slots of the whole table. -/
def occCount (gt : GokooTable) : Nat :=
  List.countP (fun o => slotOcc gt o) (List.range gt.occupied.length)

/-- Fingerprint of an item as `Insert`, `Lookup` and `Remove` all derive it. -/
def itemFp (gt : GokooTable) (item : List Nat) : List Nat :=
  fingerPrint gt (gt.hash item)

/-- Primary bucket of an item, derived from its digest. -/
def itemI1 (gt : GokooTable) (item : List Nat) : Nat :=
  primaryIndex gt (gt.hash item)

/-- Secondary bucket of an item. -/
def itemI2 (gt : GokooTable) (item : List Nat) : Nat :=
  secondaryIndex gt (itemI1 gt item) (itemFp gt item)

/-- Occurrences of the item's fingerprint among the occupied slots of its two
candidate buckets (counted once when the two buckets coincide). -/
def candCount (gt : GokooTable) (item : List Nat) : Nat :=
  if itemI2 gt item = itemI1 gt item then fpCount gt (itemI1 gt item) (itemFp gt item)
  else fpCount gt (itemI1 gt item) (itemFp gt item) + fpCount gt (itemI2 gt item) (itemFp gt item)

/-- The fingerprint `f` sits in some occupied slot of bucket `i`. -/
def presentAt (gt : GokooTable) (i : Nat) (f : List Nat) : Prop :=
  ∃ n, n < gt.nSlots ∧ slotOcc gt (i * gt.nSlots + n) = true ∧
    slotBytes gt (i * gt.nSlots + n) = f

/-- Structural well-formedness: the storage arrays have the advertised sizes
and the three sizing parameters are positive (as every table built by `New`
from positive parameters has). -/
def WF (gt : GokooTable) : Prop :=
  gt.occupied.length = gt.nBuckets * gt.nSlots ∧
  gt.buckets.length = gt.nBuckets * gt.nSlots * gt.nBytes ∧
  0 < gt.nBuckets ∧ 0 < gt.nSlots ∧ 0 < gt.nBytes

/-- The two configuration parameters of a table that the operations read,
bundled so preservation can be stated once. -/
def sameConfig (a b : GokooTable) : Prop :=
  a.nBuckets = b.nBuckets ∧ a.nSlots = b.nSlots ∧ a.nBytes = b.nBytes ∧
  a.nTries = b.nTries ∧ a.iBytes = b.iBytes ∧ a.hash = b.hash ∧
  a.occupied.length = b.occupied.length ∧ a.buckets.length = b.buckets.length

/-- Little-endian unsigned integer value of an arbitrary byte sequence (the
specification's reading of `uint(digest[0:indexByteWidth])`). -/
def leLE (l : List Nat) : Nat := l.foldr (fun b acc => b + 256 * acc) 0

/-- The eviction loop instrumented to also report the fingerprint it is
carrying when it stops; identical to `insertLoop` otherwise. -/
def insertLoopD (gt : GokooTable) (i1 : Nat) (f : List Nat) (rands : List Nat) :
    Nat → (Bool × GokooTable) × List Nat
  | 0 => ((false, gt), f)
  | fuel + 1 =>
      let ev := evict gt i1 f (rands.headD 0)
      let i2 := secondaryIndex ev.2 i1 ev.1
      let a := add ev.2 i2 ev.1
      if a.1 then ((true, a.2), ev.1) else insertLoopD a.2 i2 ev.1 rands.tail fuel

/-- `Insert` instrumented to also report the fingerprint carried at the end:
on the failure path this is the displaced fingerprint the code drops. -/
def InsertD (gt : GokooTable) (item rands : List Nat) : (Bool × GokooTable) × List Nat :=
  let h := gt.hash item
  let f := fingerPrint gt h
  let i1 := primaryIndex gt h
  let a1 := add gt i1 f
  if a1.1 then ((true, a1.2), f)
  else
    let i2 := secondaryIndex a1.2 i1 f
    let a2 := add a1.2 i2 f
    if a2.1 then ((true, a2.2), f)
    else
      let start := if rands.headD 0 % 2 = 1 then i2 else i1
      insertLoopD a2.2 start f rands.tail a2.2.nTries

/-! ### Concrete tables for counterexamples and witnesses.
All of them are reachable: each is the table `New` returns (for `cexS3`,
`cexS8` after a few successful insertions, every one placed by the first
`add`, consuming no randomness). -/

/-- The table `New(DummyHash, nBuckets=3, nSlots=1, nBytes=1, nTries=512)` builds. -/
def cexT3 : GokooTable where
  rebuild := false
  nBuckets := 3
  nSlots := 1
  nBytes := 1
  nTries := 512
  iBytes := 2
  occupied := List.replicate 3 false
  buckets := List.replicate 3 0
  hash := dummyHash

/-- `cexT3` after inserting the items `[0,0,5]` (bucket 0, fingerprint `[5]`)
and `[1,0,0]` (bucket 1, fingerprint `[0]`). -/
def cexS3 : GokooTable := (Insert ((Insert cexT3 [0, 0, 5] []).2) [1, 0, 0] []).2

/-- The table `New(DummyHash, nBuckets=8, nSlots=1, nBytes=1, nTries=2)` builds. -/
def cexT8 : GokooTable where
  rebuild := false
  nBuckets := 8
  nSlots := 1
  nBytes := 1
  nTries := 2
  iBytes := 3
  occupied := List.replicate 8 false
  buckets := List.replicate 8 0
  hash := dummyHash

/-- `cexT8` after inserting the items `[0,0,0,1]` (bucket 0, fingerprint `[1]`)
and `[6,0,0,2]` (bucket 6, fingerprint `[2]`). -/
def cexS8 : GokooTable := (Insert ((Insert cexT8 [0, 0, 0, 1] []).2) [6, 0, 0, 2] []).2

/-- The table `New(DummyHash, nBuckets=17, nSlots=1, nBytes=1, nTries=512)` builds. -/
def cexT17 : GokooTable where
  rebuild := false
  nBuckets := 17
  nSlots := 1
  nBytes := 1
  nTries := 512
  iBytes := 5
  occupied := List.replicate 17 false
  buckets := List.replicate 17 0
  hash := dummyHash

/-- The table `New(DummyHash, nBuckets=1, nSlots=1, nBytes=1, nTries=1)` builds. -/
def cexT1 : GokooTable where
  rebuild := false
  nBuckets := 1
  nSlots := 1
  nBytes := 1
  nTries := 1
  iBytes := 1
  occupied := List.replicate 1 false
  buckets := List.replicate 1 0
  hash := dummyHash

/-- `cexT1` after inserting the item `[0,0]` (bucket 0, fingerprint `[0]`),
which fills its single slot. -/
def cexS1 : GokooTable := (Insert cexT1 [0, 0] []).2

/-! ### Helper lemmas -/

lemma xor_mod_pow2_invol (k i h : Nat) (hi : i < 2 ^ k) :
    ((i ^^^ h) % 2 ^ k ^^^ h) % 2 ^ k = i := by
  apply Nat.eq_of_testBit_eq
  intro j
  rcases Nat.lt_or_ge j k with hj | hj
  · simp only [Nat.testBit_mod_two_pow, Nat.testBit_xor, hj]
    cases hbi : i.testBit j <;> cases hbh : h.testBit j <;> simp [hbi, hbh, hj]
  · have h2 : (2 : Nat) ^ k ≤ 2 ^ j := Nat.pow_le_pow_right (by norm_num) hj
    have hfalse : i.testBit j = false :=
      Nat.testBit_eq_false_of_lt (Nat.lt_of_lt_of_le hi h2)
    simp [Nat.testBit_mod_two_pow, Nat.not_lt.mpr hj, hfalse]

lemma le32_goCopy_eq_leLE (l : List Nat) :
    le32 (goCopy (List.replicate 4 0) l) = leLE (l.take 4) := by
  match l with
  | [] => rfl
  | [a] => simp [goCopy, le32, leLE, le32chunk]
  | [a, b] =>
      simp [goCopy, le32, leLE, le32chunk]
      try omega
  | [a, b, c] =>
      simp [goCopy, le32, leLE, le32chunk]
      try omega
  | a :: b :: c :: d :: rest =>
      have hmin : min 4 (a :: b :: c :: d :: rest).length = 4 := by
        simp [List.length_cons]
      simp [goCopy, hmin, le32, leLE, le32chunk]
      try omega

lemma goCopy_of_length_eq (dst src : List Nat) (h : dst.length = src.length) :
    goCopy dst src = src := by
  simp [goCopy, h, List.take_length, List.drop_length]

lemma length_goCopy (dst src : List Nat) : (goCopy dst src).length = dst.length := by
  simp [goCopy]
  try omega

lemma length_getRange (l : List Nat) (b n : Nat) (h : b + n ≤ l.length) :
    (getRange l b n).length = n := by
  simp [getRange]
  omega

lemma length_setRange (l : List Nat) (b : Nat) (src : List Nat)
    (h : b + src.length ≤ l.length) : (setRange l b src).length = l.length := by
  simp [setRange]
  omega

lemma getElem?_getRange (l : List Nat) (b n i : Nat) (hi : i < n) :
    (getRange l b n)[i]? = l[b + i]? := by
  simp [getRange, List.getElem?_take, hi, List.getElem?_drop]

lemma getElem?_getRange_ge (l : List Nat) (b n i : Nat) (hi : n ≤ i) :
    (getRange l b n)[i]? = none := by
  simp [getRange, List.getElem?_take, Nat.not_lt.mpr hi]

lemma getElem?_setRange (l : List Nat) (b : Nat) (src : List Nat)
    (hb : b + src.length ≤ l.length) (i : Nat) :
    (setRange l b src)[i]? =
      if b ≤ i ∧ i < b + src.length then src[i - b]? else l[i]? := by
  have htl : (List.take b l).length = b := by simp; omega
  have hAB : (List.take b l ++ src).length = b + src.length := by simp; omega
  show ((List.take b l ++ src) ++ l.drop (b + src.length))[i]? = _
  rcases Nat.lt_or_ge i b with hib | hib
  · rw [List.getElem?_append, if_pos (by omega), List.getElem?_append, if_pos (by omega)]
    rw [List.getElem?_take, if_pos hib, if_neg (by omega)]
  · rcases Nat.lt_or_ge i (b + src.length) with his | his
    · rw [List.getElem?_append, if_pos (by omega), List.getElem?_append, if_neg (by omega)]
      rw [if_pos (by omega), htl]
    · rw [List.getElem?_append, if_neg (by omega), List.getElem?_drop, if_neg (by omega)]
      congr 1
      omega

lemma getRange_setRange_self (l : List Nat) (b : Nat) (src : List Nat)
    (hb : b + src.length ≤ l.length) :
    getRange (setRange l b src) b src.length = src := by
  apply List.ext_getElem?
  intro i
  rcases Nat.lt_or_ge i src.length with hi | hi
  · rw [getElem?_getRange _ _ _ _ hi, getElem?_setRange l b src hb]
    rw [if_pos (by omega)]
    congr 1
    omega
  · rw [getElem?_getRange_ge _ _ _ _ hi, List.getElem?_eq_none hi]

lemma getRange_setRange_disjoint (l : List Nat) (b1 : Nat) (src : List Nat)
    (b2 n2 : Nat) (hb : b1 + src.length ≤ l.length)
    (hd : b2 + n2 ≤ b1 ∨ b1 + src.length ≤ b2) :
    getRange (setRange l b1 src) b2 n2 = getRange l b2 n2 := by
  apply List.ext_getElem?
  intro i
  rcases Nat.lt_or_ge i n2 with hi | hi
  · rw [getElem?_getRange _ _ _ _ hi, getElem?_getRange _ _ _ _ hi,
      getElem?_setRange l b1 src hb]
    rw [if_neg (by omega)]
  · rw [getElem?_getRange_ge _ _ _ _ hi, getElem?_getRange_ge _ _ _ _ hi]

lemma countP_range_switch (p q : Nat → Bool) (o : Nat) :
    ∀ N, o < N → (∀ j, j < N → j ≠ o → q j = p j) →
    List.countP q (List.range N) + (if p o then 1 else 0)
      = List.countP p (List.range N) + (if q o then 1 else 0) := by
  intro N
  induction N with
  | zero => intro h; omega
  | succ m ih =>
      intro ho hagree
      rw [List.range_succ, List.countP_append, List.countP_append]
      simp only [List.countP_cons, List.countP_nil]
      rcases Nat.lt_or_ge o m with hom | hom
      · have hq : q m = p m := hagree m (by omega) (by omega)
        have hih := ih hom (fun j hj hne => hagree j (by omega) hne)
        rw [hq]
        cases hpm : p m <;> cases hpo : p o <;> cases hqo : q o <;>
          simp [hpm, hpo, hqo] at hih ⊢ <;> omega
      · have hoeq : o = m := by omega
        subst hoeq
        have hcong : List.countP q (List.range o) = List.countP p (List.range o) := by
          apply List.countP_congr
          intro x hx
          have hxo : x < o := List.mem_range.mp hx
          rw [hagree x (by omega) (by omega)]
        rw [hcong]
        cases hpo : p o <;> cases hqo : q o <;> simp [hpo, hqo]

lemma countP_range_congr (p q : Nat → Bool) (N : Nat)
    (hagree : ∀ j, j < N → q j = p j) :
    List.countP q (List.range N) = List.countP p (List.range N) := by
  apply List.countP_congr
  intro x hx
  rw [hagree x (List.mem_range.mp hx)]

lemma bucket_slot_lt (i n nB nS : Nat) (hi : i < nB) (hn : n < nS) :
    i * nS + n < nB * nS := by
  have h1 : (i + 1) * nS ≤ nB * nS := Nat.mul_le_mul_right nS (by omega)
  have h2 : (i + 1) * nS = i * nS + nS := by ring
  omega

lemma bucket_slot_inj (i n j m nS : Nat) (hn : n < nS) (hm : m < nS)
    (h : i * nS + n = j * nS + m) : i = j ∧ n = m := by
  have hij : i = j := by
    rcases Nat.lt_trichotomy i j with hlt | heq | hgt
    · exfalso
      have h1 : (i + 1) * nS ≤ j * nS := Nat.mul_le_mul_right nS (by omega)
      have h2 : (i + 1) * nS = i * nS + nS := by ring
      omega
    · exact heq
    · exfalso
      have h1 : (j + 1) * nS ≤ i * nS := Nat.mul_le_mul_right nS (by omega)
      have h2 : (j + 1) * nS = j * nS + nS := by ring
      omega
  subst hij
  omega

lemma slot_bytes_le (o nB nS nBy : Nat) (ho : o < nB * nS) :
    o * nBy + nBy ≤ nB * nS * nBy := by
  have h1 : (o + 1) * nBy ≤ nB * nS * nBy := Nat.mul_le_mul_right nBy (by omega)
  have h2 : (o + 1) * nBy = o * nBy + nBy := by ring
  omega

lemma slotOcc_mk (gt : GokooTable) (o : Nat) (v : Bool) (B : List Nat) (w : Nat)
    (ho : o < gt.occupied.length) :
    slotOcc { gt with occupied := gt.occupied.set o v, buckets := B } w
      = if o = w then v else slotOcc gt w := by
  unfold slotOcc
  show (gt.occupied.set o v).getD w false = _
  rw [List.getD_eq_getElem?_getD, List.getD_eq_getElem?_getD, List.getElem?_set]
  by_cases h : o = w
  · subst h
    simp [ho]
  · simp [h]

lemma slotOcc_mk_buckets (gt : GokooTable) (B : List Nat) (w : Nat) :
    slotOcc { gt with buckets := B } w = slotOcc gt w := rfl

lemma slotBytes_mk_occ (gt : GokooTable) (occ : List Bool) (w : Nat) :
    slotBytes { gt with occupied := occ } w = slotBytes gt w := rfl

lemma slotBytes_setRange_self (gt : GokooTable) (occ : List Bool) (o : Nat) (src : List Nat)
    (hsrc : src.length = gt.nBytes) (hb : o * gt.nBytes + gt.nBytes ≤ gt.buckets.length) :
    slotBytes { gt with occupied := occ,
                        buckets := setRange gt.buckets (o * gt.nBytes) src } o = src := by
  unfold slotBytes
  show getRange (setRange gt.buckets (o * gt.nBytes) src) (o * gt.nBytes) gt.nBytes = src
  rw [← hsrc]
  exact getRange_setRange_self _ _ _ (by rw [hsrc]; exact hb)

lemma slotBytes_setRange_ne (gt : GokooTable) (occ : List Bool) (o : Nat) (src : List Nat)
    (w : Nat) (hsrc : src.length = gt.nBytes)
    (hb : o * gt.nBytes + gt.nBytes ≤ gt.buckets.length) (hw : w ≠ o) :
    slotBytes { gt with occupied := occ,
                        buckets := setRange gt.buckets (o * gt.nBytes) src } w
      = slotBytes gt w := by
  unfold slotBytes
  show getRange (setRange gt.buckets (o * gt.nBytes) src) (w * gt.nBytes) gt.nBytes
      = getRange gt.buckets (w * gt.nBytes) gt.nBytes
  apply getRange_setRange_disjoint
  · rw [hsrc]
    exact hb
  · rw [hsrc]
    rcases Nat.lt_or_ge w o with h | h
    · left
      have h1 : (w + 1) * gt.nBytes ≤ o * gt.nBytes := Nat.mul_le_mul_right _ (by omega)
      have h2 : (w + 1) * gt.nBytes = w * gt.nBytes + gt.nBytes := by ring
      omega
    · right
      have hlt : o < w := by omega
      have h1 : (o + 1) * gt.nBytes ≤ w * gt.nBytes := Nat.mul_le_mul_right _ (by omega)
      have h2 : (o + 1) * gt.nBytes = o * gt.nBytes + gt.nBytes := by ring
      omega

lemma WF_mk (gt : GokooTable) (occ : List Bool) (B : List Nat) (hWF : WF gt)
    (hocc : occ.length = gt.occupied.length) (hB : B.length = gt.buckets.length) :
    WF { gt with occupied := occ, buckets := B } := by
  obtain ⟨w1, w2, w3, w4, w5⟩ := hWF
  exact ⟨by simp [hocc, w1], by simp [hB, w2], w3, w4, w5⟩

lemma sameConfig_mk (gt : GokooTable) (occ : List Bool) (B : List Nat)
    (hocc : occ.length = gt.occupied.length) (hB : B.length = gt.buckets.length) :
    sameConfig gt { gt with occupied := occ, buckets := B } := by
  exact ⟨rfl, rfl, rfl, rfl, rfl, rfl, by simp [hocc], by simp [hB]⟩

lemma sameConfig_refl (gt : GokooTable) : sameConfig gt gt :=
  ⟨rfl, rfl, rfl, rfl, rfl, rfl, rfl, rfl⟩

lemma sameConfig_trans (a b c : GokooTable) (h1 : sameConfig a b) (h2 : sameConfig b c) :
    sameConfig a c := by
  obtain ⟨x1, x2, x3, x4, x5, x6, x7, x8⟩ := h1
  obtain ⟨y1, y2, y3, y4, y5, y6, y7, y8⟩ := h2
  exact ⟨x1.trans y1, x2.trans y2, x3.trans y3, x4.trans y4, x5.trans y5,
    x6.trans y6, x7.trans y7, x8.trans y8⟩

lemma addAux_false_spec (gt : GokooTable) (i : Nat) (f : List Nat) :
    ∀ rem n, (addAux gt i f n rem).1 = false →
      (addAux gt i f n rem).2 = gt ∧
      ∀ j, n ≤ j → j < n + rem → slotOcc gt (i * gt.nSlots + j) = true := by
  intro rem
  induction rem with
  | zero =>
      intro n _
      exact ⟨rfl, fun j h1 h2 => absurd h2 (by omega)⟩
  | succ m ih =>
      intro n hf
      have hunf : addAux gt i f n (m + 1)
          = if slotOcc gt (i * gt.nSlots + n) then addAux gt i f (n + 1) m
            else (true, { gt with occupied := gt.occupied.set (i * gt.nSlots + n) true,
                                  buckets := setRange gt.buckets
                                    ((i * gt.nSlots + n) * gt.nBytes) (f.take gt.nBytes) }) := rfl
      rw [hunf] at hf ⊢
      rcases (Bool.eq_false_or_eq_true (slotOcc gt (i * gt.nSlots + n))).symm with hocc | hocc
      · rw [if_neg (by simp [hocc])] at hf
        simp at hf
      · rw [if_pos hocc] at hf ⊢
        obtain ⟨he, hall⟩ := ih (n + 1) hf
        refine ⟨he, fun j h1 h2 => ?_⟩
        rcases Nat.eq_or_lt_of_le h1 with heq | hlt
        · subst heq
          exact hocc
        · exact hall j (by omega) (by omega)

lemma addAux_true_spec (gt : GokooTable) (i : Nat) (f : List Nat) :
    ∀ rem n, (addAux gt i f n rem).1 = true →
      ∃ j, n ≤ j ∧ j < n + rem ∧ slotOcc gt (i * gt.nSlots + j) = false ∧
        (addAux gt i f n rem).2 =
          { gt with occupied := gt.occupied.set (i * gt.nSlots + j) true,
                    buckets := setRange gt.buckets ((i * gt.nSlots + j) * gt.nBytes)
                      (f.take gt.nBytes) } := by
  intro rem
  induction rem with
  | zero =>
      intro n hf
      simp [addAux] at hf
  | succ m ih =>
      intro n hf
      have hunf : addAux gt i f n (m + 1)
          = if slotOcc gt (i * gt.nSlots + n) then addAux gt i f (n + 1) m
            else (true, { gt with occupied := gt.occupied.set (i * gt.nSlots + n) true,
                                  buckets := setRange gt.buckets
                                    ((i * gt.nSlots + n) * gt.nBytes) (f.take gt.nBytes) }) := rfl
      rw [hunf] at hf ⊢
      rcases (Bool.eq_false_or_eq_true (slotOcc gt (i * gt.nSlots + n))).symm with hocc | hocc
      · rw [if_neg (by simp [hocc])] at hf ⊢
        exact ⟨n, by omega, by omega, hocc, rfl⟩
      · rw [if_pos hocc] at hf ⊢
        obtain ⟨j, h1, h2, h3, h4⟩ := ih (n + 1) hf
        exact ⟨j, by omega, by omega, h3, h4⟩

lemma add_false_spec (gt : GokooTable) (i : Nat) (f : List Nat)
    (h : (add gt i f).1 = false) :
    (add gt i f).2 = gt ∧ ∀ j, j < gt.nSlots → slotOcc gt (i * gt.nSlots + j) = true := by
  obtain ⟨he, hall⟩ := addAux_false_spec gt i f gt.nSlots 0 h
  exact ⟨he, fun j hj => hall j (by omega) (by omega)⟩

lemma add_true_spec (gt : GokooTable) (i : Nat) (f : List Nat)
    (h : (add gt i f).1 = true) :
    ∃ j, j < gt.nSlots ∧ slotOcc gt (i * gt.nSlots + j) = false ∧
      (add gt i f).2 =
        { gt with occupied := gt.occupied.set (i * gt.nSlots + j) true,
                  buckets := setRange gt.buckets ((i * gt.nSlots + j) * gt.nBytes)
                    (f.take gt.nBytes) } := by
  obtain ⟨j, _, h2, h3, h4⟩ := addAux_true_spec gt i f gt.nSlots 0 h
  exact ⟨j, by omega, h3, h4⟩

lemma hasAux_iff (gt : GokooTable) (i : Nat) (f : List Nat) :
    ∀ rem n, hasAux gt i f n rem = true ↔
      ∃ j, n ≤ j ∧ j < n + rem ∧ slotOcc gt (i * gt.nSlots + j) = true ∧
        slotBytes gt (i * gt.nSlots + j) = f := by
  intro rem
  induction rem with
  | zero =>
      intro n
      constructor
      · intro h
        simp [hasAux] at h
      · rintro ⟨j, h1, h2, _, _⟩
        omega
  | succ m ih =>
      intro n
      have hunf : hasAux gt i f n (m + 1)
          = if slotOcc gt (i * gt.nSlots + n) then
              (if slotBytes gt (i * gt.nSlots + n) = f then true else hasAux gt i f (n + 1) m)
            else hasAux gt i f (n + 1) m := rfl
      rw [hunf]
      rcases (Bool.eq_false_or_eq_true (slotOcc gt (i * gt.nSlots + n))).symm with hocc | hocc
      · rw [if_neg (by simp [hocc]), ih (n + 1)]
        constructor
        · rintro ⟨j, h1, h2, h3, h4⟩
          exact ⟨j, by omega, by omega, h3, h4⟩
        · rintro ⟨j, h1, h2, h3, h4⟩
          refine ⟨j, ?_, by omega, h3, h4⟩
          rcases Nat.eq_or_lt_of_le h1 with he | hl
          · exfalso
            rw [← he] at h3
            rw [hocc] at h3
            exact Bool.noConfusion h3
          · omega
      · rw [if_pos hocc]
        by_cases heq : slotBytes gt (i * gt.nSlots + n) = f
        · rw [if_pos heq]
          constructor
          · intro _
            exact ⟨n, by omega, by omega, hocc, heq⟩
          · intro _
            rfl
        · rw [if_neg heq, ih (n + 1)]
          constructor
          · rintro ⟨j, h1, h2, h3, h4⟩
            exact ⟨j, by omega, by omega, h3, h4⟩
          · rintro ⟨j, h1, h2, h3, h4⟩
            refine ⟨j, ?_, by omega, h3, h4⟩
            rcases Nat.eq_or_lt_of_le h1 with he | hl
            · exfalso
              rw [← he] at h4
              exact heq h4
            · omega

lemma has_iff_presentAt (gt : GokooTable) (i : Nat) (f : List Nat) :
    has gt i f = true ↔ presentAt gt i f := by
  rw [has, hasAux_iff gt i f gt.nSlots 0]
  unfold presentAt
  constructor
  · rintro ⟨j, _, h2, h3, h4⟩
    exact ⟨j, by omega, h3, h4⟩
  · rintro ⟨j, h1, h2, h3⟩
    exact ⟨j, by omega, by omega, h2, h3⟩

lemma delAux_fst_eq_hasAux (gt : GokooTable) (i : Nat) (f : List Nat) :
    ∀ rem n, (delAux gt i f n rem).1 = hasAux gt i f n rem := by
  intro rem
  induction rem with
  | zero => intro n; rfl
  | succ m ih =>
      intro n
      have hunfd : delAux gt i f n (m + 1)
          = if slotOcc gt (i * gt.nSlots + n) then
              (if slotBytes gt (i * gt.nSlots + n) = f then
                (true, { gt with occupied := gt.occupied.set (i * gt.nSlots + n) false })
              else delAux gt i f (n + 1) m)
            else delAux gt i f (n + 1) m := rfl
      have hunfh : hasAux gt i f n (m + 1)
          = if slotOcc gt (i * gt.nSlots + n) then
              (if slotBytes gt (i * gt.nSlots + n) = f then true else hasAux gt i f (n + 1) m)
            else hasAux gt i f (n + 1) m := rfl
      rw [hunfd, hunfh]
      rcases (Bool.eq_false_or_eq_true (slotOcc gt (i * gt.nSlots + n))).symm with hocc | hocc
      · rw [if_neg (by simp [hocc]), if_neg (by simp [hocc])]
        exact ih (n + 1)
      · rw [if_pos hocc, if_pos hocc]
        by_cases heq : slotBytes gt (i * gt.nSlots + n) = f
        · rw [if_pos heq, if_pos heq]
        · rw [if_neg heq, if_neg heq]
          exact ih (n + 1)

lemma del_fst_eq_has (gt : GokooTable) (i : Nat) (f : List Nat) :
    (del gt i f).1 = has gt i f :=
  delAux_fst_eq_hasAux gt i f gt.nSlots 0

lemma delAux_true_spec (gt : GokooTable) (i : Nat) (f : List Nat) :
    ∀ rem n, (delAux gt i f n rem).1 = true →
      ∃ j, n ≤ j ∧ j < n + rem ∧ slotOcc gt (i * gt.nSlots + j) = true ∧
        slotBytes gt (i * gt.nSlots + j) = f ∧
        (delAux gt i f n rem).2 =
          { gt with occupied := gt.occupied.set (i * gt.nSlots + j) false } := by
  intro rem
  induction rem with
  | zero =>
      intro n hf
      simp [delAux] at hf
  | succ m ih =>
      intro n hf
      have hunf : delAux gt i f n (m + 1)
          = if slotOcc gt (i * gt.nSlots + n) then
              (if slotBytes gt (i * gt.nSlots + n) = f then
                (true, { gt with occupied := gt.occupied.set (i * gt.nSlots + n) false })
              else delAux gt i f (n + 1) m)
            else delAux gt i f (n + 1) m := rfl
      rw [hunf] at hf ⊢
      rcases (Bool.eq_false_or_eq_true (slotOcc gt (i * gt.nSlots + n))).symm with hocc | hocc
      · rw [if_neg (by simp [hocc])] at hf ⊢
        obtain ⟨j, h1, h2, h3, h4, h5⟩ := ih (n + 1) hf
        exact ⟨j, by omega, by omega, h3, h4, h5⟩
      · rw [if_pos hocc] at hf ⊢
        by_cases heq : slotBytes gt (i * gt.nSlots + n) = f
        · rw [if_pos heq] at hf ⊢
          exact ⟨n, by omega, by omega, hocc, heq, rfl⟩
        · rw [if_neg heq] at hf ⊢
          obtain ⟨j, h1, h2, h3, h4, h5⟩ := ih (n + 1) hf
          exact ⟨j, by omega, by omega, h3, h4, h5⟩

lemma del_true_spec (gt : GokooTable) (i : Nat) (f : List Nat)
    (h : (del gt i f).1 = true) :
    ∃ j, j < gt.nSlots ∧ slotOcc gt (i * gt.nSlots + j) = true ∧
      slotBytes gt (i * gt.nSlots + j) = f ∧
      (del gt i f).2 = { gt with occupied := gt.occupied.set (i * gt.nSlots + j) false } := by
  obtain ⟨j, _, h2, h3, h4, h5⟩ := delAux_true_spec gt i f gt.nSlots 0 h
  exact ⟨j, by omega, h3, h4, h5⟩

lemma delAux_false_eq (gt : GokooTable) (i : Nat) (f : List Nat) :
    ∀ rem n, (delAux gt i f n rem).1 = false → (delAux gt i f n rem).2 = gt := by
  intro rem
  induction rem with
  | zero => intro n _; rfl
  | succ m ih =>
      intro n hf
      have hunf : delAux gt i f n (m + 1)
          = if slotOcc gt (i * gt.nSlots + n) then
              (if slotBytes gt (i * gt.nSlots + n) = f then
                (true, { gt with occupied := gt.occupied.set (i * gt.nSlots + n) false })
              else delAux gt i f (n + 1) m)
            else delAux gt i f (n + 1) m := rfl
      rw [hunf] at hf ⊢
      rcases (Bool.eq_false_or_eq_true (slotOcc gt (i * gt.nSlots + n))).symm with hocc | hocc
      · rw [if_neg (by simp [hocc])] at hf ⊢
        exact ih (n + 1) hf
      · rw [if_pos hocc] at hf ⊢
        by_cases heq : slotBytes gt (i * gt.nSlots + n) = f
        · rw [if_pos heq] at hf
          simp at hf
        · rw [if_neg heq] at hf ⊢
          exact ih (n + 1) hf

lemma del_of_has_false (gt : GokooTable) (i : Nat) (f : List Nat)
    (h : has gt i f = false) : del gt i f = (false, gt) := by
  have h1 : (del gt i f).1 = false := (del_fst_eq_has gt i f).trans h
  have h2 : (del gt i f).2 = gt := delAux_false_eq gt i f gt.nSlots 0 h1
  calc del gt i f = ((del gt i f).1, (del gt i f).2) := rfl
    _ = (false, gt) := by rw [h1, h2]

lemma evict_spec (gt : GokooTable) (i : Nat) (f : List Nat) (r : Nat)
    (hWF : WF gt) (hi : i < gt.nBuckets) (hf : f.length = gt.nBytes) :
    (evict gt i f r).1 = slotBytes gt (i * gt.nSlots + r % gt.nSlots) ∧
    (evict gt i f r).2 =
      { gt with buckets :=
          setRange gt.buckets ((i * gt.nSlots + r % gt.nSlots) * gt.nBytes) f } := by
  obtain ⟨w1, w2, w3, w4, w5⟩ := hWF
  have hs : r % gt.nSlots < gt.nSlots := Nat.mod_lt r w4
  have ho : i * gt.nSlots + r % gt.nSlots < gt.nBuckets * gt.nSlots :=
    bucket_slot_lt _ _ _ _ hi hs
  have hb : (i * gt.nSlots + r % gt.nSlots) * gt.nBytes + gt.nBytes ≤ gt.buckets.length := by
    rw [w2]
    exact slot_bytes_le _ _ _ _ ho
  constructor
  · show goCopy (List.replicate f.length 0)
        (slotBytes gt (i * gt.nSlots + r % gt.nSlots)) = _
    rw [goCopy_of_length_eq]
    rw [List.length_replicate, hf]
    unfold slotBytes
    rw [length_getRange _ _ _ hb]
  · show ({ gt with buckets := setRange gt.buckets _ (f.take gt.nBytes) } : GokooTable) = _
    rw [← hf, List.take_length]

lemma fingerPrint_length (gt : GokooTable) (h : List Nat)
    (hlen : gt.iBytes + gt.nBytes ≤ h.length) :
    (fingerPrint gt h).length = gt.nBytes :=
  length_getRange _ _ _ hlen

lemma primaryIndex_lt (gt : GokooTable) (h : List Nat) (h0 : 0 < gt.nBuckets) :
    primaryIndex gt h < gt.nBuckets :=
  Nat.mod_lt _ h0

lemma secondaryIndex_lt (gt : GokooTable) (i : Nat) (f : List Nat)
    (h0 : 0 < gt.nBuckets) : secondaryIndex gt i f < gt.nBuckets :=
  Nat.mod_lt _ h0

lemma item_eqs_of_sameConfig (gt gt2 : GokooTable) (item : List Nat)
    (hc : sameConfig gt gt2) :
    itemI1 gt2 item = itemI1 gt item ∧ itemI2 gt2 item = itemI2 gt item ∧
    itemFp gt2 item = itemFp gt item := by
  obtain ⟨h1, h2, h3, h4, h5, h6, h7, h8⟩ := hc
  have e1 : itemI1 gt2 item = itemI1 gt item := by
    unfold itemI1 primaryIndex
    rw [← h1, ← h5, ← h6]
  have e3 : itemFp gt2 item = itemFp gt item := by
    unfold itemFp fingerPrint
    rw [← h5, ← h3, ← h6]
  have e2 : itemI2 gt2 item = itemI2 gt item := by
    unfold itemI2
    rw [e1, e3]
    unfold secondaryIndex
    rw [← h1]
  exact ⟨e1, e2, e3⟩

lemma presentAt_mono (gt gt2 : GokooTable) (i : Nat) (f : List Nat)
    (hnS : gt2.nSlots = gt.nSlots)
    (hkeep : ∀ w, slotOcc gt w = true → slotOcc gt2 w = true ∧
      slotBytes gt2 w = slotBytes gt w) :
    presentAt gt i f → presentAt gt2 i f := by
  rintro ⟨n, hn, h1, h2⟩
  have hn2 : i * gt2.nSlots + n = i * gt.nSlots + n := by rw [hnS]
  obtain ⟨k1, k2⟩ := hkeep _ h1
  refine ⟨n, by omega, ?_, ?_⟩
  · rw [hn2]
    exact k1
  · rw [hn2, k2]
    exact h2

lemma fpCount_pos_iff (gt : GokooTable) (i : Nat) (f : List Nat) :
    0 < fpCount gt i f ↔ presentAt gt i f := by
  unfold fpCount presentAt
  rw [List.countP_pos_iff]
  constructor
  · rintro ⟨n, hn, hp⟩
    have hn2 : n < gt.nSlots := List.mem_range.mp hn
    simp only [Bool.and_eq_true, decide_eq_true_eq] at hp
    exact ⟨n, hn2, hp.1, hp.2⟩
  · rintro ⟨n, hn, h1, h2⟩
    refine ⟨n, List.mem_range.mpr hn, ?_⟩
    simp only [Bool.and_eq_true, decide_eq_true_eq]
    exact ⟨h1, h2⟩

lemma has_iff_fpCount_pos (gt : GokooTable) (i : Nat) (f : List Nat) :
    has gt i f = true ↔ 0 < fpCount gt i f := by
  rw [has_iff_presentAt, fpCount_pos_iff]

lemma totalCount_switch (gt gt2 : GokooTable) (o : Nat)
    (hlen : gt2.occupied.length = gt.occupied.length)
    (ho : o < gt.occupied.length)
    (hagree : ∀ w, w ≠ o → slotOcc gt2 w = slotOcc gt w ∧ slotBytes gt2 w = slotBytes gt w)
    (g : List Nat) :
    totalCount gt2 g + (if slotOcc gt o && decide (slotBytes gt o = g) then 1 else 0)
      = totalCount gt g + (if slotOcc gt2 o && decide (slotBytes gt2 o = g) then 1 else 0) := by
  unfold totalCount
  rw [hlen]
  apply countP_range_switch _ _ o _ ho
  intro j hj hne
  obtain ⟨h1, h2⟩ := hagree j hne
  simp only [h1, h2]

lemma occCount_switch (gt gt2 : GokooTable) (o : Nat)
    (hlen : gt2.occupied.length = gt.occupied.length)
    (ho : o < gt.occupied.length)
    (hagree : ∀ w, w ≠ o → slotOcc gt2 w = slotOcc gt w) :
    occCount gt2 + (if slotOcc gt o then 1 else 0)
      = occCount gt + (if slotOcc gt2 o then 1 else 0) := by
  unfold occCount
  rw [hlen]
  apply countP_range_switch _ _ o _ ho
  intro j hj hne
  exact hagree j hne

lemma fpCount_switch (gt gt2 : GokooTable) (i j0 : Nat)
    (hnS : gt2.nSlots = gt.nSlots)
    (hj0 : j0 < gt.nSlots)
    (hagree : ∀ w, w ≠ i * gt.nSlots + j0 →
      slotOcc gt2 w = slotOcc gt w ∧ slotBytes gt2 w = slotBytes gt w)
    (g : List Nat) :
    fpCount gt2 i g
        + (if slotOcc gt (i * gt.nSlots + j0) &&
              decide (slotBytes gt (i * gt.nSlots + j0) = g) then 1 else 0)
      = fpCount gt i g
        + (if slotOcc gt2 (i * gt.nSlots + j0) &&
              decide (slotBytes gt2 (i * gt.nSlots + j0) = g) then 1 else 0) := by
  unfold fpCount
  rw [hnS]
  apply countP_range_switch _ _ j0 _ hj0
  intro n hn hne
  obtain ⟨h1, h2⟩ := hagree (i * gt.nSlots + n) (fun hc => hne (by omega))
  simp only [h1, h2]

lemma fpCount_congr (gt gt2 : GokooTable) (i : Nat)
    (hnS : gt2.nSlots = gt.nSlots)
    (hagree : ∀ n, n < gt.nSlots →
      slotOcc gt2 (i * gt.nSlots + n) = slotOcc gt (i * gt.nSlots + n) ∧
      slotBytes gt2 (i * gt.nSlots + n) = slotBytes gt (i * gt.nSlots + n))
    (g : List Nat) :
    fpCount gt2 i g = fpCount gt i g := by
  unfold fpCount
  rw [hnS]
  apply countP_range_congr
  intro n hn
  obtain ⟨h1, h2⟩ := hagree n hn
  simp only [h1, h2]

/-- Slot-level description of writing bytes `f` and occupancy `v` into global
slot `o` (the shape of the state a successful `add` produces). -/
lemma writeSlot_facts (gt : GokooTable) (o : Nat) (v : Bool) (f : List Nat)
    (hWF : WF gt) (ho : o < gt.nBuckets * gt.nSlots) (hf : f.length = gt.nBytes) :
    sameConfig gt { gt with occupied := gt.occupied.set o v,
                            buckets := setRange gt.buckets (o * gt.nBytes) f } ∧
    WF { gt with occupied := gt.occupied.set o v,
                 buckets := setRange gt.buckets (o * gt.nBytes) f } ∧
    slotOcc { gt with occupied := gt.occupied.set o v,
                      buckets := setRange gt.buckets (o * gt.nBytes) f } o = v ∧
    slotBytes { gt with occupied := gt.occupied.set o v,
                        buckets := setRange gt.buckets (o * gt.nBytes) f } o = f ∧
    (∀ w, w ≠ o →
      slotOcc { gt with occupied := gt.occupied.set o v,
                        buckets := setRange gt.buckets (o * gt.nBytes) f } w
          = slotOcc gt w ∧
      slotBytes { gt with occupied := gt.occupied.set o v,
                          buckets := setRange gt.buckets (o * gt.nBytes) f } w
          = slotBytes gt w) := by
  obtain ⟨w1, w2, w3, w4, w5⟩ := hWF
  have hoLen : o < gt.occupied.length := by omega
  have hb : o * gt.nBytes + gt.nBytes ≤ gt.buckets.length := by
    rw [w2]
    exact slot_bytes_le _ _ _ _ ho
  have hlocc : (gt.occupied.set o v).length = gt.occupied.length := List.length_set _ _ _
  have hlbuck : (setRange gt.buckets (o * gt.nBytes) f).length = gt.buckets.length :=
    length_setRange _ _ _ (by rw [hf]; exact hb)
  refine ⟨sameConfig_mk gt _ _ hlocc hlbuck, WF_mk gt _ _ ⟨w1, w2, w3, w4, w5⟩ hlocc hlbuck,
    ?_, ?_, ?_⟩
  · rw [slotOcc_mk gt o v _ o hoLen, if_pos rfl]
  · exact slotBytes_setRange_self gt _ o f hf hb
  · intro w hw
    constructor
    · rw [slotOcc_mk gt o v _ w hoLen, if_neg (by omega)]
    · exact slotBytes_setRange_ne gt _ o f w hf hb hw

/-- Slot-level description of clearing (or setting) only the occupancy flag of
slot `o` (the shape of the state a successful `del` produces). -/
lemma setOcc_facts (gt : GokooTable) (o : Nat) (v : Bool)
    (hWF : WF gt) (ho : o < gt.nBuckets * gt.nSlots) :
    sameConfig gt { gt with occupied := gt.occupied.set o v } ∧
    WF { gt with occupied := gt.occupied.set o v } ∧
    slotOcc { gt with occupied := gt.occupied.set o v } o = v ∧
    (∀ w, slotBytes { gt with occupied := gt.occupied.set o v } w = slotBytes gt w) ∧
    (∀ w, w ≠ o → slotOcc { gt with occupied := gt.occupied.set o v } w = slotOcc gt w) := by
  obtain ⟨w1, w2, w3, w4, w5⟩ := hWF
  have hoLen : o < gt.occupied.length := by omega
  have hlocc : (gt.occupied.set o v).length = gt.occupied.length := List.length_set _ _ _
  have hkey : ∀ w, slotOcc { gt with occupied := gt.occupied.set o v } w
      = slotOcc { gt with occupied := gt.occupied.set o v, buckets := gt.buckets } w :=
    fun w => rfl
  refine ⟨sameConfig_mk gt _ gt.buckets hlocc rfl, WF_mk gt _ gt.buckets ⟨w1, w2, w3, w4, w5⟩ hlocc rfl,
    ?_, fun w => rfl, ?_⟩
  · rw [hkey, slotOcc_mk gt o v _ o hoLen, if_pos rfl]
  · intro w hw
    rw [hkey, slotOcc_mk gt o v _ w hoLen, if_neg (by omega)]

/-- Slot-level description of overwriting only the bytes of slot `o` (the
shape of the state `evict` produces). -/
lemma setBytes_facts (gt : GokooTable) (o : Nat) (f : List Nat)
    (hWF : WF gt) (ho : o < gt.nBuckets * gt.nSlots) (hf : f.length = gt.nBytes) :
    sameConfig gt { gt with buckets := setRange gt.buckets (o * gt.nBytes) f } ∧
    WF { gt with buckets := setRange gt.buckets (o * gt.nBytes) f } ∧
    (∀ w, slotOcc { gt with buckets := setRange gt.buckets (o * gt.nBytes) f } w
      = slotOcc gt w) ∧
    slotBytes { gt with buckets := setRange gt.buckets (o * gt.nBytes) f } o = f ∧
    (∀ w, w ≠ o →
      slotBytes { gt with buckets := setRange gt.buckets (o * gt.nBytes) f } w
        = slotBytes gt w) := by
  obtain ⟨w1, w2, w3, w4, w5⟩ := hWF
  have hb : o * gt.nBytes + gt.nBytes ≤ gt.buckets.length := by
    rw [w2]
    exact slot_bytes_le _ _ _ _ ho
  have hlbuck : (setRange gt.buckets (o * gt.nBytes) f).length = gt.buckets.length :=
    length_setRange _ _ _ (by rw [hf]; exact hb)
  refine ⟨sameConfig_mk gt gt.occupied _ rfl hlbuck,
    WF_mk gt gt.occupied _ ⟨w1, w2, w3, w4, w5⟩ rfl hlbuck, fun w => rfl, ?_, ?_⟩
  · exact slotBytes_setRange_self gt _ o f hf hb
  · intro w hw
    exact slotBytes_setRange_ne gt _ o f w hf hb hw

/-- Everything a successful `add` does: configuration and sizes kept, the
fingerprint placed in bucket `i`, previously occupied slots untouched, all
counts incremented accordingly. -/
lemma add_true_effects (gt : GokooTable) (i : Nat) (f : List Nat)
    (hWF : WF gt) (hi : i < gt.nBuckets) (hf : f.length = gt.nBytes)
    (h : (add gt i f).1 = true) :
    sameConfig gt (add gt i f).2 ∧ WF (add gt i f).2 ∧
    presentAt (add gt i f).2 i f ∧
    (∀ w, slotOcc gt w = true → slotOcc (add gt i f).2 w = true ∧
      slotBytes (add gt i f).2 w = slotBytes gt w) ∧
    (∀ g, totalCount (add gt i f).2 g = totalCount gt g + (if f = g then 1 else 0)) ∧
    (∀ g, fpCount (add gt i f).2 i g = fpCount gt i g + (if f = g then 1 else 0)) ∧
    (∀ i2 g, i2 ≠ i → fpCount (add gt i f).2 i2 g = fpCount gt i2 g) ∧
    occCount (add gt i f).2 = occCount gt + 1 := by
  obtain ⟨j, hj, hfree, hres⟩ := add_true_spec gt i f h
  have hWFc := hWF
  obtain ⟨w1, w2, w3, w4, w5⟩ := hWFc
  have hftake : f.take gt.nBytes = f := by
    rw [← hf]
    exact List.take_length f
  rw [hftake] at hres
  have ho : i * gt.nSlots + j < gt.nBuckets * gt.nSlots := bucket_slot_lt _ _ _ _ hi hj
  have hoLen : i * gt.nSlots + j < gt.occupied.length := by omega
  obtain ⟨hcfg, hWF2, hoccS, hbyteS, hframe⟩ :=
    writeSlot_facts gt (i * gt.nSlots + j) true f hWF ho hf
  rw [← hres] at hcfg hWF2 hoccS hbyteS hframe
  have hlenOcc : (add gt i f).2.occupied.length = gt.occupied.length := hcfg.2.2.2.2.2.2.1.symm
  have hnSeq : (add gt i f).2.nSlots = gt.nSlots := hcfg.2.1.symm
  have hkeep : ∀ w, slotOcc gt w = true → slotOcc (add gt i f).2 w = true ∧
      slotBytes (add gt i f).2 w = slotBytes gt w := by
    intro w hw
    by_cases hwo : w = i * gt.nSlots + j
    · subst hwo
      rw [hw] at hfree
      exact Bool.noConfusion hfree
    · obtain ⟨a, b⟩ := hframe w hwo
      exact ⟨a.trans hw, b⟩
  have hagree : ∀ w, w ≠ i * gt.nSlots + j →
      slotOcc (add gt i f).2 w = slotOcc gt w ∧
      slotBytes (add gt i f).2 w = slotBytes gt w := hframe
  refine ⟨hcfg, hWF2, ?_, hkeep, ?_, ?_, ?_, ?_⟩
  · refine ⟨j, ?_, ?_, ?_⟩
    · omega
    · rw [hnSeq]
      exact hoccS
    · rw [hnSeq]
      exact hbyteS
  · intro g
    have hsw := totalCount_switch gt (add gt i f).2 (i * gt.nSlots + j) hlenOcc hoLen hagree g
    rw [hfree, hoccS, hbyteS] at hsw
    by_cases hg : f = g
    · simp [hg] at hsw ⊢
      omega
    · simp [hg] at hsw ⊢
      omega
  · intro g
    have hsw := fpCount_switch gt (add gt i f).2 i j hnSeq hj hagree g
    rw [hfree, hoccS, hbyteS] at hsw
    by_cases hg : f = g
    · simp [hg] at hsw ⊢
      omega
    · simp [hg] at hsw ⊢
      omega
  · intro i2 g hne
    apply fpCount_congr gt (add gt i f).2 i2 hnSeq _ g
    intro n hn
    apply hagree
    intro hc
    have := bucket_slot_inj i2 n i j gt.nSlots hn hj hc
    exact hne this.1
  · have hsw := occCount_switch gt (add gt i f).2 (i * gt.nSlots + j) hlenOcc hoLen
      (fun w hw => (hagree w hw).1)
    rw [hfree, hoccS] at hsw
    simp at hsw
    omega

/-- Everything a successful `del` does: configuration and sizes kept, one
occurrence of `f` removed from bucket `i`, one slot cleared, nothing else
touched. -/
lemma del_true_effects (gt : GokooTable) (i : Nat) (f : List Nat)
    (hWF : WF gt) (hi : i < gt.nBuckets) (h : (del gt i f).1 = true) :
    sameConfig gt (del gt i f).2 ∧ WF (del gt i f).2 ∧
    (∀ g, totalCount (del gt i f).2 g + (if f = g then 1 else 0) = totalCount gt g) ∧
    (∀ g, fpCount (del gt i f).2 i g + (if f = g then 1 else 0) = fpCount gt i g) ∧
    (∀ i2 g, i2 ≠ i → fpCount (del gt i f).2 i2 g = fpCount gt i2 g) ∧
    occCount (del gt i f).2 + 1 = occCount gt := by
  obtain ⟨j, hj, hocc, hbytes, hres⟩ := del_true_spec gt i f h
  have hWFc := hWF
  obtain ⟨w1, w2, w3, w4, w5⟩ := hWFc
  have ho : i * gt.nSlots + j < gt.nBuckets * gt.nSlots := bucket_slot_lt _ _ _ _ hi hj
  have hoLen : i * gt.nSlots + j < gt.occupied.length := by omega
  obtain ⟨hcfg, hWF2, hoccS, hbytesAll, hoccNe⟩ :=
    setOcc_facts gt (i * gt.nSlots + j) false hWF ho
  rw [← hres] at hcfg hWF2 hoccS hbytesAll hoccNe
  have hlenOcc : (del gt i f).2.occupied.length = gt.occupied.length := hcfg.2.2.2.2.2.2.1.symm
  have hnSeq : (del gt i f).2.nSlots = gt.nSlots := hcfg.2.1.symm
  have hagree : ∀ w, w ≠ i * gt.nSlots + j →
      slotOcc (del gt i f).2 w = slotOcc gt w ∧
      slotBytes (del gt i f).2 w = slotBytes gt w :=
    fun w hw => ⟨hoccNe w hw, hbytesAll w⟩
  refine ⟨hcfg, hWF2, ?_, ?_, ?_, ?_⟩
  · intro g
    have hsw := totalCount_switch gt (del gt i f).2 (i * gt.nSlots + j) hlenOcc hoLen hagree g
    rw [hocc, hbytes, hoccS] at hsw
    by_cases hg : f = g
    · simp [hg] at hsw ⊢
      omega
    · simp [hg] at hsw ⊢
      omega
  · intro g
    have hsw := fpCount_switch gt (del gt i f).2 i j hnSeq hj hagree g
    rw [hocc, hbytes, hoccS] at hsw
    by_cases hg : f = g
    · simp [hg] at hsw ⊢
      omega
    · simp [hg] at hsw ⊢
      omega
  · intro i2 g hne
    apply fpCount_congr gt (del gt i f).2 i2 hnSeq _ g
    intro n hn
    apply hagree
    intro hc
    have := bucket_slot_inj i2 n i j gt.nSlots hn hj hc
    exact hne this.1
  · have hsw := occCount_switch gt (del gt i f).2 (i * gt.nSlots + j) hlenOcc hoLen
      (fun w hw => (hagree w hw).1)
    rw [hocc, hoccS] at hsw
    simp at hsw
    omega

/-- Everything `evict` does when the chosen slot is occupied: configuration,
sizes and occupancy flags are kept, the incoming fingerprint replaces the
slot's bytes (so it is now present in bucket `i`), the displaced bytes are
returned, and the stored-occurrence counts swap one `fOld` for one `f`. -/
lemma evict_effects (gt : GokooTable) (i : Nat) (f : List Nat) (r : Nat)
    (hWF : WF gt) (hi : i < gt.nBuckets) (hf : f.length = gt.nBytes)
    (hFull : slotOcc gt (i * gt.nSlots + r % gt.nSlots) = true) :
    sameConfig gt (evict gt i f r).2 ∧ WF (evict gt i f r).2 ∧
    (evict gt i f r).1 = slotBytes gt (i * gt.nSlots + r % gt.nSlots) ∧
    (evict gt i f r).1.length = gt.nBytes ∧
    (evict gt i f r).2.occupied = gt.occupied ∧
    presentAt (evict gt i f r).2 i f ∧
    (∀ w, w ≠ i * gt.nSlots + r % gt.nSlots →
      slotOcc (evict gt i f r).2 w = slotOcc gt w ∧
      slotBytes (evict gt i f r).2 w = slotBytes gt w) ∧
    (∀ g, totalCount (evict gt i f r).2 g + (if (evict gt i f r).1 = g then 1 else 0)
      = totalCount gt g + (if f = g then 1 else 0)) := by
  have hWFc := hWF
  obtain ⟨w1, w2, w3, w4, w5⟩ := hWFc
  have hs : r % gt.nSlots < gt.nSlots := Nat.mod_lt r w4
  have ho : i * gt.nSlots + r % gt.nSlots < gt.nBuckets * gt.nSlots :=
    bucket_slot_lt _ _ _ _ hi hs
  have hoLen : i * gt.nSlots + r % gt.nSlots < gt.occupied.length := by omega
  have hb : (i * gt.nSlots + r % gt.nSlots) * gt.nBytes + gt.nBytes ≤ gt.buckets.length := by
    rw [w2]
    exact slot_bytes_le _ _ _ _ ho
  obtain ⟨hev1, hev2⟩ := evict_spec gt i f r hWF hi hf
  obtain ⟨hcfg, hWF2, hoccAll, hbytesSelf, hbytesNe⟩ :=
    setBytes_facts gt (i * gt.nSlots + r % gt.nSlots) f hWF ho hf
  rw [← hev2] at hcfg hWF2 hoccAll hbytesSelf hbytesNe
  have hlenOcc : (evict gt i f r).2.occupied.length = gt.occupied.length :=
    hcfg.2.2.2.2.2.2.1.symm
  have hnSeq : (evict gt i f r).2.nSlots = gt.nSlots := hcfg.2.1.symm
  have hlen1 : (evict gt i f r).1.length = gt.nBytes := by
    rw [hev1]
    unfold slotBytes
    exact length_getRange _ _ _ hb
  have hoccSelf : slotOcc (evict gt i f r).2 (i * gt.nSlots + r % gt.nSlots) = true := by
    rw [hoccAll]
    exact hFull
  have hagree : ∀ w, w ≠ i * gt.nSlots + r % gt.nSlots →
      slotOcc (evict gt i f r).2 w = slotOcc gt w ∧
      slotBytes (evict gt i f r).2 w = slotBytes gt w :=
    fun w hw => ⟨hoccAll w, hbytesNe w hw⟩
  refine ⟨hcfg, hWF2, hev1, hlen1, by rw [hev2], ?_, hagree, ?_⟩
  · refine ⟨r % gt.nSlots, ?_, ?_, ?_⟩
    · omega
    · rw [hnSeq]
      exact hoccSelf
    · rw [hnSeq]
      exact hbytesSelf
  · intro g
    have hsw := totalCount_switch gt (evict gt i f r).2 (i * gt.nSlots + r % gt.nSlots)
      hlenOcc hoLen hagree g
    rw [hFull, hoccSelf, hbytesSelf, ← hev1] at hsw
    by_cases h1 : (evict gt i f r).1 = g <;> by_cases h2 : f = g
    all_goals
      simp [h1, h2] at hsw ⊢
    all_goals
      omega

lemma dummyHash_length (x : List Nat) : (dummyHash x).length = 8 := by
  unfold dummyHash
  rw [length_goCopy]
  exact List.length_replicate 8 0

lemma Lookup_eq (gt : GokooTable) (item : List Nat) :
    Lookup gt item
      = if has gt (itemI1 gt item) (itemFp gt item) = true then true
        else has gt (itemI2 gt item) (itemFp gt item) := rfl

lemma Insert_eq (gt : GokooTable) (item rands : List Nat) :
    Insert gt item rands
      = if (add gt (itemI1 gt item) (itemFp gt item)).1 = true
        then (true, (add gt (itemI1 gt item) (itemFp gt item)).2)
        else
          if (add (add gt (itemI1 gt item) (itemFp gt item)).2
                (secondaryIndex (add gt (itemI1 gt item) (itemFp gt item)).2
                  (itemI1 gt item) (itemFp gt item)) (itemFp gt item)).1 = true
          then (true, (add (add gt (itemI1 gt item) (itemFp gt item)).2
                (secondaryIndex (add gt (itemI1 gt item) (itemFp gt item)).2
                  (itemI1 gt item) (itemFp gt item)) (itemFp gt item)).2)
          else insertLoop
            (add (add gt (itemI1 gt item) (itemFp gt item)).2
              (secondaryIndex (add gt (itemI1 gt item) (itemFp gt item)).2
                (itemI1 gt item) (itemFp gt item)) (itemFp gt item)).2
            (if rands.headD 0 % 2 = 1
             then secondaryIndex (add gt (itemI1 gt item) (itemFp gt item)).2
               (itemI1 gt item) (itemFp gt item)
             else itemI1 gt item)
            (itemFp gt item) rands.tail
            (add (add gt (itemI1 gt item) (itemFp gt item)).2
              (secondaryIndex (add gt (itemI1 gt item) (itemFp gt item)).2
                (itemI1 gt item) (itemFp gt item)) (itemFp gt item)).2.nTries := rfl

lemma InsertD_eq (gt : GokooTable) (item rands : List Nat) :
    InsertD gt item rands
      = if (add gt (itemI1 gt item) (itemFp gt item)).1 = true
        then ((true, (add gt (itemI1 gt item) (itemFp gt item)).2), itemFp gt item)
        else
          if (add (add gt (itemI1 gt item) (itemFp gt item)).2
                (secondaryIndex (add gt (itemI1 gt item) (itemFp gt item)).2
                  (itemI1 gt item) (itemFp gt item)) (itemFp gt item)).1 = true
          then ((true, (add (add gt (itemI1 gt item) (itemFp gt item)).2
                (secondaryIndex (add gt (itemI1 gt item) (itemFp gt item)).2
                  (itemI1 gt item) (itemFp gt item)) (itemFp gt item)).2), itemFp gt item)
          else insertLoopD
            (add (add gt (itemI1 gt item) (itemFp gt item)).2
              (secondaryIndex (add gt (itemI1 gt item) (itemFp gt item)).2
                (itemI1 gt item) (itemFp gt item)) (itemFp gt item)).2
            (if rands.headD 0 % 2 = 1
             then secondaryIndex (add gt (itemI1 gt item) (itemFp gt item)).2
               (itemI1 gt item) (itemFp gt item)
             else itemI1 gt item)
            (itemFp gt item) rands.tail
            (add (add gt (itemI1 gt item) (itemFp gt item)).2
              (secondaryIndex (add gt (itemI1 gt item) (itemFp gt item)).2
                (itemI1 gt item) (itemFp gt item)) (itemFp gt item)).2.nTries := rfl

lemma Remove_eq (gt : GokooTable) (item : List Nat) :
    Remove gt item
      = if (del gt (itemI1 gt item) (itemFp gt item)).1 = true
        then (true, (del gt (itemI1 gt item) (itemFp gt item)).2)
        else del (del gt (itemI1 gt item) (itemFp gt item)).2
          (secondaryIndex (del gt (itemI1 gt item) (itemFp gt item)).2
            (itemI1 gt item) (itemFp gt item)) (itemFp gt item) := rfl

lemma insertLoop_succ (gt : GokooTable) (cur : Nat) (f rands : List Nat) (fuel : Nat) :
    insertLoop gt cur f rands (fuel + 1)
      = if (add (evict gt cur f (rands.headD 0)).2
              (secondaryIndex (evict gt cur f (rands.headD 0)).2 cur
                (evict gt cur f (rands.headD 0)).1)
              (evict gt cur f (rands.headD 0)).1).1 = true
        then (true, (add (evict gt cur f (rands.headD 0)).2
              (secondaryIndex (evict gt cur f (rands.headD 0)).2 cur
                (evict gt cur f (rands.headD 0)).1)
              (evict gt cur f (rands.headD 0)).1).2)
        else insertLoop
          (add (evict gt cur f (rands.headD 0)).2
            (secondaryIndex (evict gt cur f (rands.headD 0)).2 cur
              (evict gt cur f (rands.headD 0)).1)
            (evict gt cur f (rands.headD 0)).1).2
          (secondaryIndex (evict gt cur f (rands.headD 0)).2 cur
            (evict gt cur f (rands.headD 0)).1)
          (evict gt cur f (rands.headD 0)).1 rands.tail fuel := rfl

lemma insertLoopD_succ (gt : GokooTable) (cur : Nat) (f rands : List Nat) (fuel : Nat) :
    insertLoopD gt cur f rands (fuel + 1)
      = if (add (evict gt cur f (rands.headD 0)).2
              (secondaryIndex (evict gt cur f (rands.headD 0)).2 cur
                (evict gt cur f (rands.headD 0)).1)
              (evict gt cur f (rands.headD 0)).1).1 = true
        then ((true, (add (evict gt cur f (rands.headD 0)).2
              (secondaryIndex (evict gt cur f (rands.headD 0)).2 cur
                (evict gt cur f (rands.headD 0)).1)
              (evict gt cur f (rands.headD 0)).1).2), (evict gt cur f (rands.headD 0)).1)
        else insertLoopD
          (add (evict gt cur f (rands.headD 0)).2
            (secondaryIndex (evict gt cur f (rands.headD 0)).2 cur
              (evict gt cur f (rands.headD 0)).1)
            (evict gt cur f (rands.headD 0)).1).2
          (secondaryIndex (evict gt cur f (rands.headD 0)).2 cur
            (evict gt cur f (rands.headD 0)).1)
          (evict gt cur f (rands.headD 0)).1 rands.tail fuel := rfl

lemma evict_occupied (gt : GokooTable) (cur : Nat) (f : List Nat) (r : Nat) :
    (evict gt cur f r).2.occupied = gt.occupied := rfl

lemma insertLoop_false_occ :
    ∀ fuel (gt : GokooTable) (cur : Nat) (f rands : List Nat),
      (insertLoop gt cur f rands fuel).1 = false →
      (insertLoop gt cur f rands fuel).2.occupied = gt.occupied := by
  intro fuel
  induction fuel with
  | zero => intro gt cur f rands _; rfl
  | succ m ih =>
      intro gt cur f rands hfail
      rw [insertLoop_succ] at hfail ⊢
      rcases (Bool.eq_false_or_eq_true (add (evict gt cur f (rands.headD 0)).2
          (secondaryIndex (evict gt cur f (rands.headD 0)).2 cur
            (evict gt cur f (rands.headD 0)).1)
          (evict gt cur f (rands.headD 0)).1).1).symm with ha | ha
      · rw [if_neg (by rw [ha]; exact Bool.false_ne_true)] at hfail ⊢
        have ha2 := (add_false_spec _ _ _ ha).1
        rw [ih _ _ _ _ hfail, ha2, evict_occupied]
      · rw [if_pos ha] at hfail
        simp at hfail

lemma secondaryIndex_eq (gt : GokooTable) (i : Nat) (f : List Nat) :
    secondaryIndex gt i f = (i ^^^ xxh32 f) % gt.nBuckets := rfl

/-- Invariant of the eviction loop under a power-of-two bucket count: if the
item's fingerprint `fI` is being carried toward one of its two candidate
buckets or already resides in one of them, then after a successful loop it
resides in one of them. -/
lemma insertLoop_present (k : Nat) (fI : List Nat) (nB p : Nat)
    (hpow : nB = 2 ^ k) (hp : p < nB) :
    ∀ fuel (gt : GokooTable) (cur : Nat) (f rands : List Nat),
      WF gt → gt.nBuckets = nB →
      fI.length = gt.nBytes → f.length = gt.nBytes → cur < nB →
      (∀ j, j < gt.nSlots → slotOcc gt (cur * gt.nSlots + j) = true) →
      ((f = fI ∧ (cur = p ∨ cur = (p ^^^ xxh32 fI) % nB)) ∨
        presentAt gt p fI ∨ presentAt gt ((p ^^^ xxh32 fI) % nB) fI) →
      (insertLoop gt cur f rands fuel).1 = true →
      sameConfig gt (insertLoop gt cur f rands fuel).2 ∧
      WF (insertLoop gt cur f rands fuel).2 ∧
      (presentAt (insertLoop gt cur f rands fuel).2 p fI ∨
        presentAt (insertLoop gt cur f rands fuel).2 ((p ^^^ xxh32 fI) % nB) fI) := by
  subst hpow
  have hnBpos : 0 < 2 ^ k := Nat.pos_pow_of_pos k (by norm_num)
  have hsym : ((p ^^^ xxh32 fI) % 2 ^ k ^^^ xxh32 fI) % 2 ^ k = p :=
    xor_mod_pow2_invol k p (xxh32 fI) hp
  intro fuel
  induction fuel with
  | zero =>
      intro gt cur f rands _ _ _ _ _ _ _ hT
      simp [insertLoop] at hT
  | succ m ih =>
      intro gt cur f rands hWF hnB hfI hfLen hcur hFull hinv hT
      have hWFc := hWF
      obtain ⟨w1, w2, w3, w4, w5⟩ := hWFc
      have hs : (rands.headD 0) % gt.nSlots < gt.nSlots := Nat.mod_lt _ w4
      have hFullslot : slotOcc gt (cur * gt.nSlots + (rands.headD 0) % gt.nSlots) = true :=
        hFull _ hs
      have hcurB : cur < gt.nBuckets := by rw [hnB]; exact hcur
      obtain ⟨hcfgE, hWFE, hev1, hevlen, hoccE, hpresE, hframeE, _⟩ :=
        evict_effects gt cur f (rands.headD 0) hWF hcurB hfLen hFullslot
      have hnBE : (evict gt cur f (rands.headD 0)).2.nBuckets = 2 ^ k := by
        rw [← hcfgE.1]
        exact hnB
      have hnSE : (evict gt cur f (rands.headD 0)).2.nSlots = gt.nSlots := hcfgE.2.1.symm
      have hnByE : (evict gt cur f (rands.headD 0)).2.nBytes = gt.nBytes := hcfgE.2.2.1.symm
      have hevlenE : (evict gt cur f (rands.headD 0)).1.length
          = (evict gt cur f (rands.headD 0)).2.nBytes := by
        rw [hnByE]
        exact hevlen
      have hfIE : fI.length = (evict gt cur f (rands.headD 0)).2.nBytes := by
        rw [hnByE]
        exact hfI
      have hi2eq : secondaryIndex (evict gt cur f (rands.headD 0)).2 cur
          (evict gt cur f (rands.headD 0)).1
          = (cur ^^^ xxh32 (evict gt cur f (rands.headD 0)).1) % 2 ^ k := by
        rw [secondaryIndex_eq, hnBE]
      have hi2lt : secondaryIndex (evict gt cur f (rands.headD 0)).2 cur
          (evict gt cur f (rands.headD 0)).1 < 2 ^ k := by
        rw [hi2eq]
        exact Nat.mod_lt _ hnBpos
      -- after the eviction, the carried fingerprint heads to a candidate
      -- bucket, or the item's fingerprint already rests in one
      have hinv2 : ((evict gt cur f (rands.headD 0)).1 = fI ∧
            (secondaryIndex (evict gt cur f (rands.headD 0)).2 cur
                (evict gt cur f (rands.headD 0)).1 = p ∨
             secondaryIndex (evict gt cur f (rands.headD 0)).2 cur
                (evict gt cur f (rands.headD 0)).1 = (p ^^^ xxh32 fI) % 2 ^ k)) ∨
          (presentAt (evict gt cur f (rands.headD 0)).2 p fI ∨
           presentAt (evict gt cur f (rands.headD 0)).2 ((p ^^^ xxh32 fI) % 2 ^ k) fI) := by
        rcases hinv with ⟨hffI, hcurpq⟩ | hpres
        · right
          subst hffI
          rcases hcurpq with hc | hc
          · left
            rw [← hc]
            exact hpresE
          · right
            rw [← hc]
            exact hpresE
        · have hkey : ∀ c, c < 2 ^ k → presentAt gt c fI →
              ((evict gt cur f (rands.headD 0)).1 = fI ∧ cur = c) ∨
              presentAt (evict gt cur f (rands.headD 0)).2 c fI := by
            intro c hcB ⟨nw, hnw, hw1, hw2⟩
            by_cases hwo : c * gt.nSlots + nw
                = cur * gt.nSlots + (rands.headD 0) % gt.nSlots
            · left
              obtain ⟨hceq, hneq⟩ := bucket_slot_inj c nw cur ((rands.headD 0) % gt.nSlots)
                gt.nSlots hnw hs hwo
              constructor
              · rw [hev1, ← hwo, hw2]
              · exact hceq.symm
            · right
              obtain ⟨ho1, ho2⟩ := hframeE (c * gt.nSlots + nw) hwo
              refine ⟨nw, ?_, ?_, ?_⟩
              · rw [hnSE]
                exact hnw
              · rw [show c * (evict gt cur f (rands.headD 0)).2.nSlots + nw
                    = c * gt.nSlots + nw by rw [hnSE]]
                rw [ho1]
                exact hw1
              · rw [show c * (evict gt cur f (rands.headD 0)).2.nSlots + nw
                    = c * gt.nSlots + nw by rw [hnSE]]
                rw [ho2]
                exact hw2
          rcases hpres with hpp | hpq
          · rcases hkey p hp hpp with ⟨hfid, hcureq⟩ | hkept
            · left
              refine ⟨hfid, Or.inr ?_⟩
              rw [hi2eq, hfid, hcureq]
            · right
              exact Or.inl hkept
          · rcases hkey ((p ^^^ xxh32 fI) % 2 ^ k) (Nat.mod_lt _ hnBpos) hpq with
              ⟨hfid, hcureq⟩ | hkept
            · left
              refine ⟨hfid, Or.inl ?_⟩
              rw [hi2eq, hfid, hcureq]
              exact hsym
            · right
              exact Or.inr hkept
      rw [insertLoop_succ] at hT ⊢
      rcases (Bool.eq_false_or_eq_true (add (evict gt cur f (rands.headD 0)).2
          (secondaryIndex (evict gt cur f (rands.headD 0)).2 cur
            (evict gt cur f (rands.headD 0)).1)
          (evict gt cur f (rands.headD 0)).1).1).symm with ha | ha
      · -- the add failed: recurse with the invariant re-established
        rw [if_neg (by rw [ha]; exact Bool.false_ne_true)] at hT ⊢
        have he := (add_false_spec _ _ _ ha).1
        have hFull2 := (add_false_spec _ _ _ ha).2
        rw [he] at hT ⊢
        have hi2ltB : secondaryIndex (evict gt cur f (rands.headD 0)).2 cur
            (evict gt cur f (rands.headD 0)).1 < 2 ^ k := hi2lt
        obtain ⟨hcfgR, hWFR, hpresR⟩ := ih (evict gt cur f (rands.headD 0)).2
          (secondaryIndex (evict gt cur f (rands.headD 0)).2 cur
            (evict gt cur f (rands.headD 0)).1)
          (evict gt cur f (rands.headD 0)).1 rands.tail
          hWFE hnBE hfIE hevlenE hi2ltB hFull2 hinv2 hT
        exact ⟨sameConfig_trans _ _ _ hcfgE hcfgR, hWFR, hpresR⟩
      · -- the add succeeded: the carried fingerprint lands; presence holds
        rw [if_pos ha] at hT ⊢
        have hi2B : secondaryIndex (evict gt cur f (rands.headD 0)).2 cur
            (evict gt cur f (rands.headD 0)).1
              < (evict gt cur f (rands.headD 0)).2.nBuckets := by
          rw [hnBE]
          exact hi2lt
        obtain ⟨hcfgA, hWFA, hpresA, hkeepA, _, _, _, _⟩ :=
          add_true_effects (evict gt cur f (rands.headD 0)).2
            (secondaryIndex (evict gt cur f (rands.headD 0)).2 cur
              (evict gt cur f (rands.headD 0)).1)
            (evict gt cur f (rands.headD 0)).1 hWFE hi2B hevlenE ha
        refine ⟨sameConfig_trans _ _ _ hcfgE hcfgA, hWFA, ?_⟩
        rcases hinv2 with ⟨hfid, hi2pq⟩ | hkept
        · have hpresFI : presentAt (add (evict gt cur f (rands.headD 0)).2
              (secondaryIndex (evict gt cur f (rands.headD 0)).2 cur
                (evict gt cur f (rands.headD 0)).1)
              (evict gt cur f (rands.headD 0)).1).2
              (secondaryIndex (evict gt cur f (rands.headD 0)).2 cur
                (evict gt cur f (rands.headD 0)).1) fI := by
            rw [← hfid]
            exact hpresA
          rcases hi2pq with hc | hc
          · left
            rw [← hc]
            exact hpresFI
          · right
            rw [← hc]
            exact hpresFI
        · have hmono := presentAt_mono (evict gt cur f (rands.headD 0)).2
            (add (evict gt cur f (rands.headD 0)).2
              (secondaryIndex (evict gt cur f (rands.headD 0)).2 cur
                (evict gt cur f (rands.headD 0)).1)
              (evict gt cur f (rands.headD 0)).1).2
          rcases hkept with h1 | h1
          · exact Or.inl (hmono p fI hcfgA.2.1.symm hkeepA h1)
          · exact Or.inr (hmono _ fI hcfgA.2.1.symm hkeepA h1)

/-- After any successful `Insert` on a power-of-two table, the item's
fingerprint resides in one of its two candidate buckets. -/
lemma insert_true_present (gt : GokooTable) (k : Nat) (item rands : List Nat)
    (hWF : WF gt) (hpow : gt.nBuckets = 2 ^ k)
    (hlen : gt.iBytes + gt.nBytes ≤ (gt.hash item).length)
    (hIns : (Insert gt item rands).1 = true) :
    sameConfig gt (Insert gt item rands).2 ∧ WF (Insert gt item rands).2 ∧
    (presentAt (Insert gt item rands).2 (itemI1 gt item) (itemFp gt item) ∨
      presentAt (Insert gt item rands).2 (itemI2 gt item) (itemFp gt item)) := by
  have hWFc := hWF
  obtain ⟨w1, w2, w3, w4, w5⟩ := hWFc
  have hfLen : (itemFp gt item).length = gt.nBytes := fingerPrint_length _ _ hlen
  have hp : itemI1 gt item < gt.nBuckets := primaryIndex_lt _ _ w3
  rw [Insert_eq] at hIns ⊢
  rcases (Bool.eq_false_or_eq_true
      (add gt (itemI1 gt item) (itemFp gt item)).1).symm with ha1 | ha1
  · rw [if_neg (by rw [ha1]; exact Bool.false_ne_true)] at hIns ⊢
    have he1 := (add_false_spec _ _ _ ha1).1
    have hFull1 := (add_false_spec _ _ _ ha1).2
    rw [he1] at hIns ⊢
    have hq : secondaryIndex gt (itemI1 gt item) (itemFp gt item) < gt.nBuckets :=
      secondaryIndex_lt _ _ _ w3
    rcases (Bool.eq_false_or_eq_true
        (add gt (secondaryIndex gt (itemI1 gt item) (itemFp gt item))
          (itemFp gt item)).1).symm with ha2 | ha2
    · rw [if_neg (by rw [ha2]; exact Bool.false_ne_true)] at hIns ⊢
      have he2 := (add_false_spec _ _ _ ha2).1
      have hFull2 := (add_false_spec _ _ _ ha2).2
      rw [he2] at hIns ⊢
      have hqeq : secondaryIndex gt (itemI1 gt item) (itemFp gt item)
          = (itemI1 gt item ^^^ xxh32 (itemFp gt item)) % gt.nBuckets := rfl
      have hstart : (if rands.headD 0 % 2 = 1
          then secondaryIndex gt (itemI1 gt item) (itemFp gt item)
          else itemI1 gt item) < gt.nBuckets := by
        by_cases hcoin : rands.headD 0 % 2 = 1
        · rw [if_pos hcoin]
          exact hq
        · rw [if_neg hcoin]
          exact hp
      have hFullStart : ∀ j, j < gt.nSlots →
          slotOcc gt ((if rands.headD 0 % 2 = 1
            then secondaryIndex gt (itemI1 gt item) (itemFp gt item)
            else itemI1 gt item) * gt.nSlots + j) = true := by
        intro j hj
        by_cases hcoin : rands.headD 0 % 2 = 1
        · rw [if_pos hcoin]
          exact hFull2 j hj
        · rw [if_neg hcoin]
          exact hFull1 j hj
      have hinv : (itemFp gt item = itemFp gt item ∧
          ((if rands.headD 0 % 2 = 1
            then secondaryIndex gt (itemI1 gt item) (itemFp gt item)
            else itemI1 gt item) = itemI1 gt item ∨
           (if rands.headD 0 % 2 = 1
            then secondaryIndex gt (itemI1 gt item) (itemFp gt item)
            else itemI1 gt item)
              = (itemI1 gt item ^^^ xxh32 (itemFp gt item)) % gt.nBuckets)) ∨
          presentAt gt (itemI1 gt item) (itemFp gt item) ∨
          presentAt gt ((itemI1 gt item ^^^ xxh32 (itemFp gt item)) % gt.nBuckets)
            (itemFp gt item) := by
        left
        refine ⟨rfl, ?_⟩
        by_cases hcoin : rands.headD 0 % 2 = 1
        · right
          rw [if_pos hcoin]
          exact hqeq
        · left
          rw [if_neg hcoin]
      have hloop := insertLoop_present k (itemFp gt item) gt.nBuckets (itemI1 gt item)
        hpow hp gt.nTries gt
        (if rands.headD 0 % 2 = 1
         then secondaryIndex gt (itemI1 gt item) (itemFp gt item)
         else itemI1 gt item)
        (itemFp gt item) rands.tail hWF rfl hfLen hfLen hstart hFullStart hinv hIns
      obtain ⟨hcfgR, hWFR, hpresR⟩ := hloop
      refine ⟨hcfgR, hWFR, ?_⟩
      rcases hpresR with h1 | h1
      · exact Or.inl h1
      · right
        rw [show itemI2 gt item
            = (itemI1 gt item ^^^ xxh32 (itemFp gt item)) % gt.nBuckets from rfl]
        exact h1
    · rw [if_pos ha2] at hIns ⊢
      obtain ⟨hcfgA, hWFA, hpresA, _, _, _, _, _⟩ :=
        add_true_effects gt (secondaryIndex gt (itemI1 gt item) (itemFp gt item))
          (itemFp gt item) hWF hq hfLen ha2
      exact ⟨hcfgA, hWFA, Or.inr hpresA⟩
  · rw [if_pos ha1] at hIns ⊢
    obtain ⟨hcfgA, hWFA, hpresA, _, _, _, _, _⟩ :=
      add_true_effects gt (itemI1 gt item) (itemFp gt item) hWF hp hfLen ha1
    exact ⟨hcfgA, hWFA, Or.inl hpresA⟩

lemma lookup_true_of_present (gt : GokooTable) (item : List Nat)
    (h : presentAt gt (itemI1 gt item) (itemFp gt item) ∨
      presentAt gt (itemI2 gt item) (itemFp gt item)) :
    Lookup gt item = true := by
  rw [Lookup_eq]
  rcases h with h1 | h1
  · rw [if_pos ((has_iff_presentAt _ _ _).mpr h1)]
  · by_cases hh : has gt (itemI1 gt item) (itemFp gt item) = true
    · rw [if_pos hh]
    · rw [if_neg hh]
      exact (has_iff_presentAt _ _ _).mpr h1

lemma lookup_iff_cand (gt : GokooTable) (item : List Nat) :
    Lookup gt item = true ↔ 0 < candCount gt item := by
  rw [Lookup_eq]
  unfold candCount
  by_cases hpq : itemI2 gt item = itemI1 gt item
  · rw [if_pos hpq, hpq]
    by_cases hh : has gt (itemI1 gt item) (itemFp gt item) = true
    · rw [if_pos hh]
      constructor
      · intro _
        exact (has_iff_fpCount_pos _ _ _).mp hh
      · intro _
        rfl
    · rw [if_neg hh]
      exact has_iff_fpCount_pos _ _ _
  · rw [if_neg hpq]
    by_cases hh : has gt (itemI1 gt item) (itemFp gt item) = true
    · rw [if_pos hh]
      have hp1 := (has_iff_fpCount_pos _ _ _).mp hh
      constructor
      · intro _
        omega
      · intro _
        rfl
    · rw [if_neg hh]
      have hfp1 : fpCount gt (itemI1 gt item) (itemFp gt item) = 0 := by
        rcases Nat.eq_zero_or_pos (fpCount gt (itemI1 gt item) (itemFp gt item)) with h | h
        · exact h
        · rw [(has_iff_fpCount_pos _ _ _).mpr h] at hh
          exact absurd rfl hh
      rw [hfp1]
      constructor
      · intro h
        have := (has_iff_fpCount_pos _ _ _).mp h
        omega
      · intro h
        exact (has_iff_fpCount_pos _ _ _).mpr (by omega)

/-- What `Remove` does when the item's fingerprint occurs in a candidate
bucket: it returns true and removes exactly one occurrence (one slot cleared,
candidate-bucket and whole-table counts down by one). -/
lemma remove_spec (gt : GokooTable) (item : List Nat) (hWF : WF gt)
    (hpos : 0 < candCount gt item) :
    (Remove gt item).1 = true ∧ sameConfig gt (Remove gt item).2 ∧
    WF (Remove gt item).2 ∧
    candCount (Remove gt item).2 item + 1 = candCount gt item ∧
    occCount (Remove gt item).2 + 1 = occCount gt ∧
    (∀ g, totalCount (Remove gt item).2 g + (if itemFp gt item = g then 1 else 0)
      = totalCount gt g) := by
  have w3 : 0 < gt.nBuckets := hWF.2.2.1
  have hp : itemI1 gt item < gt.nBuckets := primaryIndex_lt _ _ w3
  have hqlt : itemI2 gt item < gt.nBuckets := Nat.mod_lt _ w3
  rw [Remove_eq]
  rcases (Bool.eq_false_or_eq_true
      (del gt (itemI1 gt item) (itemFp gt item)).1).symm with hd1 | hd1
  · rw [if_neg (by rw [hd1]; exact Bool.false_ne_true)]
    have he1 : (del gt (itemI1 gt item) (itemFp gt item)).2 = gt :=
      delAux_false_eq _ _ _ _ _ hd1
    rw [he1]
    have hhas1 : has gt (itemI1 gt item) (itemFp gt item) = false := by
      rw [← del_fst_eq_has]
      exact hd1
    have hfp1 : fpCount gt (itemI1 gt item) (itemFp gt item) = 0 := by
      rcases Nat.eq_zero_or_pos (fpCount gt (itemI1 gt item) (itemFp gt item)) with h | h
      · exact h
      · rw [(has_iff_fpCount_pos _ _ _).mpr h] at hhas1
        exact Bool.noConfusion hhas1
    unfold candCount at hpos
    by_cases hpq : itemI2 gt item = itemI1 gt item
    · rw [if_pos hpq, hfp1] at hpos
      omega
    · rw [if_neg hpq, hfp1] at hpos
      have hfq : 0 < fpCount gt (itemI2 gt item) (itemFp gt item) := by omega
      have hd2 : (del gt (itemI2 gt item) (itemFp gt item)).1 = true := by
        rw [del_fst_eq_has]
        exact (has_iff_fpCount_pos _ _ _).mpr hfq
      obtain ⟨hcfgD, hWFD, htotD, hfpD, hfpFrameD, hoccD⟩ :=
        del_true_effects gt (itemI2 gt item) (itemFp gt item) hWF hqlt hd2
      obtain ⟨e1, e2, e3⟩ := item_eqs_of_sameConfig gt
        (del gt (itemI2 gt item) (itemFp gt item)).2 item hcfgD
      refine ⟨hd2, hcfgD, hWFD, ?_, hoccD, htotD⟩
      show candCount (del gt (itemI2 gt item) (itemFp gt item)).2 item + 1
          = candCount gt item
      unfold candCount
      rw [e1, e2, e3, if_neg hpq, if_neg hpq]
      have hA := hfpD (itemFp gt item)
      rw [if_pos rfl] at hA
      have hB := hfpFrameD (itemI1 gt item) (itemFp gt item)
        (fun hc => hpq hc.symm)
      omega
  · rw [if_pos hd1]
    obtain ⟨hcfgD, hWFD, htotD, hfpD, hfpFrameD, hoccD⟩ :=
      del_true_effects gt (itemI1 gt item) (itemFp gt item) hWF hp hd1
    obtain ⟨e1, e2, e3⟩ := item_eqs_of_sameConfig gt
      (del gt (itemI1 gt item) (itemFp gt item)).2 item hcfgD
    refine ⟨rfl, hcfgD, hWFD, ?_, hoccD, htotD⟩
    show candCount (del gt (itemI1 gt item) (itemFp gt item)).2 item + 1
        = candCount gt item
    unfold candCount
    rw [e1, e2, e3]
    have hA := hfpD (itemFp gt item)
    rw [if_pos rfl] at hA
    by_cases hpq : itemI2 gt item = itemI1 gt item
    · rw [if_pos hpq, if_pos hpq]
      omega
    · rw [if_neg hpq, if_neg hpq]
      have hB := hfpFrameD (itemI2 gt item) (itemFp gt item) hpq
      omega

/-- What an `Insert` that succeeds through one of the first two `add`
attempts (no eviction) does: it returns true and stores one more copy of the
item's fingerprint in a candidate bucket, occupying one more slot. -/
lemma insert_noevict_spec (gt : GokooTable) (item rands : List Nat) (hWF : WF gt)
    (hlen : gt.iBytes + gt.nBytes ≤ (gt.hash item).length)
    (hcond : (add gt (itemI1 gt item) (itemFp gt item)).1 = true ∨
             (add gt (itemI2 gt item) (itemFp gt item)).1 = true) :
    (Insert gt item rands).1 = true ∧ sameConfig gt (Insert gt item rands).2 ∧
    WF (Insert gt item rands).2 ∧
    candCount (Insert gt item rands).2 item = candCount gt item + 1 ∧
    occCount (Insert gt item rands).2 = occCount gt + 1 ∧
    totalCount (Insert gt item rands).2 (itemFp gt item)
      = totalCount gt (itemFp gt item) + 1 := by
  have hWFc := hWF
  obtain ⟨w1, w2, w3, w4, w5⟩ := hWFc
  have hfLen : (itemFp gt item).length = gt.nBytes := fingerPrint_length _ _ hlen
  have hp : itemI1 gt item < gt.nBuckets := primaryIndex_lt _ _ w3
  have hqlt : itemI2 gt item < gt.nBuckets := Nat.mod_lt _ w3
  rw [Insert_eq]
  rcases (Bool.eq_false_or_eq_true
      (add gt (itemI1 gt item) (itemFp gt item)).1).symm with ha1 | ha1
  · have ha2 : (add gt (itemI2 gt item) (itemFp gt item)).1 = true := by
      rcases hcond with h | h
      · rw [ha1] at h
        exact Bool.noConfusion h
      · exact h
    rw [if_neg (by rw [ha1]; exact Bool.false_ne_true)]
    have he1 := (add_false_spec _ _ _ ha1).1
    rw [he1]
    rw [show secondaryIndex gt (itemI1 gt item) (itemFp gt item) = itemI2 gt item from rfl]
    rw [if_pos ha2]
    obtain ⟨hcfgA, hWFA, hpresA, hkeepA, htotA, hfpA, hfpFrameA, hoccA⟩ :=
      add_true_effects gt (itemI2 gt item) (itemFp gt item) hWF hqlt hfLen ha2
    obtain ⟨e1, e2, e3⟩ := item_eqs_of_sameConfig gt
      (add gt (itemI2 gt item) (itemFp gt item)).2 item hcfgA
    refine ⟨rfl, hcfgA, hWFA, ?_, hoccA, ?_⟩
    · show candCount (add gt (itemI2 gt item) (itemFp gt item)).2 item
        = candCount gt item + 1
      unfold candCount
      rw [e1, e2, e3]
      have hA := hfpA (itemFp gt item)
      rw [if_pos rfl] at hA
      by_cases hpq : itemI2 gt item = itemI1 gt item
      · rw [if_pos hpq, if_pos hpq, ← hpq]
        exact hA
      · rw [if_neg hpq, if_neg hpq]
        have hB := hfpFrameA (itemI1 gt item) (itemFp gt item) (fun hc => hpq hc.symm)
        omega
    · have := htotA (itemFp gt item)
      rw [if_pos rfl] at this
      exact this
  · rw [if_pos ha1]
    obtain ⟨hcfgA, hWFA, hpresA, hkeepA, htotA, hfpA, hfpFrameA, hoccA⟩ :=
      add_true_effects gt (itemI1 gt item) (itemFp gt item) hWF hp hfLen ha1
    obtain ⟨e1, e2, e3⟩ := item_eqs_of_sameConfig gt
      (add gt (itemI1 gt item) (itemFp gt item)).2 item hcfgA
    refine ⟨rfl, hcfgA, hWFA, ?_, hoccA, ?_⟩
    · show candCount (add gt (itemI1 gt item) (itemFp gt item)).2 item
        = candCount gt item + 1
      unfold candCount
      rw [e1, e2, e3]
      have hA := hfpA (itemFp gt item)
      rw [if_pos rfl] at hA
      by_cases hpq : itemI2 gt item = itemI1 gt item
      · rw [if_pos hpq, if_pos hpq]
        omega
      · rw [if_neg hpq, if_neg hpq]
        have hB := hfpFrameA (itemI2 gt item) (itemFp gt item) hpq
        omega
    · have := htotA (itemFp gt item)
      rw [if_pos rfl] at this
      exact this

/-- The instrumented eviction loop computes exactly the loop of the code; the
extra component only records the carried fingerprint. -/
lemma insertLoopD_fst_eq :
    ∀ fuel (gt : GokooTable) (cur : Nat) (f rands : List Nat),
      (insertLoopD gt cur f rands fuel).1 = insertLoop gt cur f rands fuel := by
  intro fuel
  induction fuel with
  | zero => intro gt cur f rands; rfl
  | succ m ih =>
      intro gt cur f rands
      rw [insertLoopD_succ, insertLoop_succ]
      rcases (Bool.eq_false_or_eq_true (add (evict gt cur f (rands.headD 0)).2
          (secondaryIndex (evict gt cur f (rands.headD 0)).2 cur
            (evict gt cur f (rands.headD 0)).1)
          (evict gt cur f (rands.headD 0)).1).1).symm with ha | ha
      · rw [if_neg (by rw [ha]; exact Bool.false_ne_true),
          if_neg (by rw [ha]; exact Bool.false_ne_true)]
        exact ih _ _ _ _
      · rw [if_pos ha, if_pos ha]

/-- `InsertD` computes exactly `Insert`; the extra component only records the
fingerprint carried when the operation stops. -/
lemma InsertD_fst_eq (gt : GokooTable) (item rands : List Nat) :
    (InsertD gt item rands).1 = Insert gt item rands := by
  rw [InsertD_eq, Insert_eq]
  rcases (Bool.eq_false_or_eq_true (add gt (itemI1 gt item) (itemFp gt item)).1).symm
    with ha1 | ha1
  · have hne1 : ¬ (add gt (itemI1 gt item) (itemFp gt item)).1 = true := by
      rw [ha1]; exact Bool.false_ne_true
    rw [if_neg hne1, if_neg hne1]
    rcases (Bool.eq_false_or_eq_true (add (add gt (itemI1 gt item) (itemFp gt item)).2
        (secondaryIndex (add gt (itemI1 gt item) (itemFp gt item)).2
          (itemI1 gt item) (itemFp gt item)) (itemFp gt item)).1).symm with ha2 | ha2
    · have hne2 : ¬ (add (add gt (itemI1 gt item) (itemFp gt item)).2
          (secondaryIndex (add gt (itemI1 gt item) (itemFp gt item)).2
            (itemI1 gt item) (itemFp gt item)) (itemFp gt item)).1 = true := by
        rw [ha2]; exact Bool.false_ne_true
      rw [if_neg hne2, if_neg hne2]
      exact insertLoopD_fst_eq _ _ _ _ _
    · rw [if_pos ha2, if_pos ha2]
  · rw [if_pos ha1, if_pos ha1]

/-- Bookkeeping of a failing eviction loop: the surviving stored occurrences
plus the one fingerprint still being carried (and finally dropped) account
exactly for the initial stored occurrences plus the incoming fingerprint. -/
lemma insertLoopD_counts :
    ∀ fuel (gt : GokooTable) (cur : Nat) (f rands : List Nat),
      WF gt → f.length = gt.nBytes → cur < gt.nBuckets →
      (∀ j, j < gt.nSlots → slotOcc gt (cur * gt.nSlots + j) = true) →
      (insertLoopD gt cur f rands fuel).1.1 = false →
      sameConfig gt (insertLoopD gt cur f rands fuel).1.2 ∧
      WF (insertLoopD gt cur f rands fuel).1.2 ∧
      (insertLoopD gt cur f rands fuel).2.length = gt.nBytes ∧
      ∀ g, totalCount (insertLoopD gt cur f rands fuel).1.2 g
            + (if (insertLoopD gt cur f rands fuel).2 = g then 1 else 0)
          = totalCount gt g + (if f = g then 1 else 0) := by
  intro fuel
  induction fuel with
  | zero =>
      intro gt cur f rands hWF hf _ _ _
      exact ⟨sameConfig_refl gt, hWF, hf, fun g => rfl⟩
  | succ m ih =>
      intro gt cur f rands hWF hf hcur hFull hfail
      have hWFc := hWF
      obtain ⟨w1, w2, w3, w4, w5⟩ := hWFc
      have hs : (rands.headD 0) % gt.nSlots < gt.nSlots := Nat.mod_lt _ w4
      have hFullslot : slotOcc gt (cur * gt.nSlots + (rands.headD 0) % gt.nSlots) = true :=
        hFull _ hs
      obtain ⟨hcfgE, hWFE, hev1, hevlen, hoccE, hpresE, hframeE, hcntE⟩ :=
        evict_effects gt cur f (rands.headD 0) hWF hcur hf hFullslot
      rw [insertLoopD_succ] at hfail ⊢
      rcases (Bool.eq_false_or_eq_true (add (evict gt cur f (rands.headD 0)).2
          (secondaryIndex (evict gt cur f (rands.headD 0)).2 cur
            (evict gt cur f (rands.headD 0)).1)
          (evict gt cur f (rands.headD 0)).1).1).symm with ha | ha
      · rw [if_neg (by rw [ha]; exact Bool.false_ne_true)] at hfail ⊢
        have he := (add_false_spec _ _ _ ha).1
        have hFull2 := (add_false_spec _ _ _ ha).2
        rw [he] at hfail ⊢
        have hevlenE : (evict gt cur f (rands.headD 0)).1.length
            = (evict gt cur f (rands.headD 0)).2.nBytes :=
          hevlen.trans hcfgE.2.2.1
        have hi2lt : secondaryIndex (evict gt cur f (rands.headD 0)).2 cur
            (evict gt cur f (rands.headD 0)).1
              < (evict gt cur f (rands.headD 0)).2.nBuckets :=
          secondaryIndex_lt _ _ _ hWFE.2.2.1
        obtain ⟨hcfgR, hWFR, hlenR, hcntR⟩ := ih (evict gt cur f (rands.headD 0)).2
          (secondaryIndex (evict gt cur f (rands.headD 0)).2 cur
            (evict gt cur f (rands.headD 0)).1)
          (evict gt cur f (rands.headD 0)).1 rands.tail
          hWFE hevlenE hi2lt hFull2 hfail
        refine ⟨sameConfig_trans _ _ _ hcfgE hcfgR, hWFR, ?_, ?_⟩
        · rw [hlenR]
          exact hcfgE.2.2.1.symm
        · intro g
          exact (hcntR g).trans (hcntE g)
      · rw [if_pos ha] at hfail
        simp at hfail

/-! ### Claim theorems -/

/-- C1 counterexample: on the table `New` builds for 3 buckets, the valid
index 2 with fingerprint `[0]` is not recovered by applying `secondaryIndex`
twice — XOR followed by `mod 3` is not an involution. -/
theorem secondaryIndex_involutive_counterexample :
    New dummyHash 3 1 1 512 = some cexT3 ∧ 2 < cexT3.nBuckets ∧
    secondaryIndex cexT3 (secondaryIndex cexT3 2 [0]) [0] ≠ 2 :=
  ⟨rfl, by decide, by decide⟩

/-- C1 amended: index symmetry does hold whenever the bucket count is a power
of two (XOR acts bitwise below the modulus). -/
theorem secondaryIndex_involutive_pow2 (gt : GokooTable) (k : Nat)
    (hpow : gt.nBuckets = 2 ^ k) (i : Nat) (hi : i < gt.nBuckets) (f : List Nat) :
    secondaryIndex gt (secondaryIndex gt i f) f = i := by
  unfold secondaryIndex
  rw [hpow] at hi ⊢
  exact xor_mod_pow2_invol k i (xxh32 f) hi

/-- Witness for `secondaryIndex_involutive_pow2` at a concrete table. -/
theorem secondaryIndex_involutive_pow2_witness :
    cexT8.nBuckets = 2 ^ 3 ∧ 5 < cexT8.nBuckets ∧
    secondaryIndex cexT8 (secondaryIndex cexT8 5 [42]) [42] = 5 :=
  ⟨rfl, by decide, secondaryIndex_involutive_pow2 cexT8 3 rfl 5 (by decide) [42]⟩

/-- C2 counterexample: on a reachable 3-bucket table, an `Insert` that
succeeds through the eviction chain strands the new item's fingerprint in a
non-candidate bucket, and the immediately following `Lookup` returns false. -/
theorem insert_then_lookup_counterexample :
    New dummyHash 3 1 1 512 = some cexT3 ∧
    (Insert cexT3 [0, 0, 5] []).1 = true ∧
    (Insert ((Insert cexT3 [0, 0, 5] []).2) [1, 0, 0] []).1 = true ∧
    (Insert cexS3 [0, 0, 3] [1, 0, 0]).1 = true ∧
    Lookup (Insert cexS3 [0, 0, 3] [1, 0, 0]).2 [0, 0, 3] = false :=
  ⟨rfl, rfl, rfl, rfl, rfl⟩

/-- C3 counterexample: in the same reachable scenario, `Remove` right after
the successful `Insert` returns false (the fingerprint is outside both
candidate buckets), contradicting the claimed delete effectiveness. -/
theorem insert_remove_counterexample :
    New dummyHash 3 1 1 512 = some cexT3 ∧
    (Insert cexS3 [0, 0, 3] [1, 0, 0]).1 = true ∧
    (Remove (Insert cexS3 [0, 0, 3] [1, 0, 0]).2 [0, 0, 3]).1 = false :=
  ⟨rfl, rfl, rfl⟩

/-- C4 counterexample: a failing `Insert` (all tries exhausted) can drop the
newly inserted item's own fingerprint: after the call returns false the
fingerprint `[0]` of the inserted item occurs in no occupied slot at all. -/
theorem insert_failure_keeps_item_counterexample :
    New dummyHash 8 1 1 2 = some cexT8 ∧
    (Insert cexT8 [0, 0, 0, 1] []).1 = true ∧
    (Insert ((Insert cexT8 [0, 0, 0, 1] []).2) [6, 0, 0, 2] []).1 = true ∧
    itemFp cexS8 [0, 0, 0, 0] = [0] ∧
    (Insert cexS8 [0, 0, 0, 0] [1, 0, 0]).1 = false ∧
    totalCount (Insert cexS8 [0, 0, 0, 0] [1, 0, 0]).2 [0] = 0 :=
  ⟨rfl, rfl, rfl, rfl, rfl, by decide⟩

/-- C5: `New` fails exactly when the digest of the empty input is shorter
than `ceil(sqrt(bucketCount)) + fingerprintBytes`; on failure no table (hence
no storage) is produced, and on success the two storage arrays have lengths
`bucketCount*slotsPerBucket` and `bucketCount*slotsPerBucket*fingerprintBytes`. -/
theorem new_validation_spec (hash : List Nat → List Nat) (nb ns nf nt : Nat) :
    (New hash nb ns nf nt = none ↔ (hash []).length < ceilSqrt nb + nf) ∧
    (New hash nb ns nf nt).elim True (fun gt =>
      gt.iBytes = ceilSqrt nb ∧ gt.occupied.length = nb * ns ∧
      gt.buckets.length = nb * ns * nf) := by
  unfold New
  by_cases h : (hash []).length < ceilSqrt nb + nf <;> simp [h]

/-- C6 counterexample: for 17 buckets the index width is 5 bytes, but
`primaryIndex` reads only the first 4 of them: on the digest
`[0,0,0,0,1,0,0,0]` the code returns 0 while the little-endian value of the
first 5 bytes reduced mod 17 is 1. -/
theorem primaryIndex_le_counterexample :
    New dummyHash 17 1 1 512 = some cexT17 ∧
    cexT17.iBytes = 5 ∧ cexT17.iBytes + cexT17.nBytes ≤ 8 ∧
    primaryIndex cexT17 [0, 0, 0, 0, 1, 0, 0, 0] = 0 ∧
    leLE ([0, 0, 0, 0, 1, 0, 0, 0].take cexT17.iBytes) % cexT17.nBuckets = 1 :=
  ⟨rfl, rfl, by decide, rfl, by decide⟩

/-- C6 amended: `primaryIndex` equals the little-endian value of the first
`min(indexByteWidth, 4)` digest bytes, reduced modulo the bucket count (the
`Uint32` staging buffer truncates wider index prefixes to 4 bytes). -/
theorem primaryIndex_truncates (gt : GokooTable) (d : List Nat) :
    primaryIndex gt d = leLE (d.take (min gt.iBytes 4)) % gt.nBuckets := by
  unfold primaryIndex getRange
  rw [List.drop_zero, le32_goCopy_eq_leLE, List.take_take, Nat.min_comm]

/-- C7: removing an item whose fingerprint is in neither candidate bucket
returns false and leaves the table (flags, bytes and configuration) exactly
as it was. -/
theorem remove_unknown_item (gt : GokooTable) (item : List Nat)
    (h1 : has gt (itemI1 gt item) (itemFp gt item) = false)
    (h2 : has gt (itemI2 gt item) (itemFp gt item) = false) :
    Remove gt item = (false, gt) := by
  unfold Remove
  have d1 := del_of_has_false gt (itemI1 gt item) (itemFp gt item) h1
  have d2 := del_of_has_false gt (itemI2 gt item) (itemFp gt item) h2
  unfold itemI1 itemFp at d1 d2
  unfold itemI2 itemI1 itemFp at d2
  simp [d1, d2]

/-- Witness for `remove_unknown_item` on a concrete empty table. -/
theorem remove_unknown_item_witness :
    has cexT3 (itemI1 cexT3 [9]) (itemFp cexT3 [9]) = false ∧
    has cexT3 (itemI2 cexT3 [9]) (itemFp cexT3 [9]) = false ∧
    Remove cexT3 [9] = (false, cexT3) :=
  ⟨rfl, rfl, remove_unknown_item cexT3 [9] rfl rfl⟩

/-- C8: a failing `Insert` leaves every occupancy flag exactly as it was (the
eviction chain rewrites fingerprint bytes only; a failing `add` changes
nothing). -/
theorem insert_false_occupied_unchanged (gt : GokooTable) (item rands : List Nat)
    (h : (Insert gt item rands).1 = false) :
    (Insert gt item rands).2.occupied = gt.occupied := by
  rw [Insert_eq] at h ⊢
  rcases (Bool.eq_false_or_eq_true
      (add gt (itemI1 gt item) (itemFp gt item)).1).symm with ha1 | ha1
  · rw [if_neg (by rw [ha1]; exact Bool.false_ne_true)] at h ⊢
    have he1 := (add_false_spec _ _ _ ha1).1
    rcases (Bool.eq_false_or_eq_true
        (add (add gt (itemI1 gt item) (itemFp gt item)).2
          (secondaryIndex (add gt (itemI1 gt item) (itemFp gt item)).2
            (itemI1 gt item) (itemFp gt item)) (itemFp gt item)).1).symm with ha2 | ha2
    · rw [if_neg (by rw [ha2]; exact Bool.false_ne_true)] at h ⊢
      have he2 := (add_false_spec _ _ _ ha2).1
      rw [insertLoop_false_occ _ _ _ _ _ h, he2, he1]
    · rw [if_pos ha2] at h
      simp at h
  · rw [if_pos ha1] at h
    simp at h

/-- Witness for `insert_false_occupied_unchanged`: inserting into a full
1-bucket table fails and keeps the occupancy array. -/
theorem insert_false_occupied_unchanged_witness :
    New dummyHash 1 1 1 1 = some cexT1 ∧
    (Insert cexS1 [1, 1] [0, 0]).1 = false ∧
    (Insert cexS1 [1, 1] [0, 0]).2.occupied = cexS1.occupied :=
  ⟨rfl, rfl, insert_false_occupied_unchanged cexS1 [1, 1] [0, 0] rfl⟩

/-- C9: on any table `New` builds from positive parameters and a fixed-length
hash, every storage access of `Insert`, `Lookup` and `Remove` is in bounds:
both index functions return bucket indices below `nBuckets`, the slot index
and byte range `access` computes for any such bucket and any slot lie within
the two arrays, the digest is long enough for both slices taken of it, and
the eviction slot draw is below `nSlots`. -/
theorem access_in_bounds (hash : List Nat → List Nat) (nb ns nf nt L : Nat)
    (gt : GokooTable) (hNew : New hash nb ns nf nt = some gt)
    (hnb : 0 < nb) (hns : 0 < ns) (hnf : 0 < nf)
    (hhash : ∀ x, (hash x).length = L) :
    (∀ d, primaryIndex gt d < gt.nBuckets) ∧
    (∀ i f2, secondaryIndex gt i f2 < gt.nBuckets) ∧
    (∀ i n, i < gt.nBuckets → n < gt.nSlots →
      (access gt i n).1 < gt.occupied.length ∧
      (access gt i n).2.2 ≤ gt.buckets.length) ∧
    (∀ x, gt.iBytes + gt.nBytes ≤ (gt.hash x).length) ∧
    (∀ r, r % gt.nSlots < gt.nSlots) := by
  have hNew2 : (if (hash []).length < ceilSqrt nb + nf then none
      else some { rebuild := false, nBuckets := nb, nSlots := ns, nBytes := nf,
                  nTries := nt, iBytes := ceilSqrt nb,
                  occupied := List.replicate (nb * ns) false,
                  buckets := List.replicate (nb * ns * nf) 0,
                  hash := hash } : Option GokooTable) = some gt := hNew
  by_cases hc : (hash []).length < ceilSqrt nb + nf
  · rw [if_pos hc] at hNew2
    exact Option.noConfusion hNew2
  · rw [if_neg hc] at hNew2
    have hgt := Option.some.inj hNew2
    subst hgt
    refine ⟨?_, ?_, ?_, ?_, ?_⟩
    · intro d
      exact primaryIndex_lt _ _ hnb
    · intro i f2
      exact secondaryIndex_lt _ _ _ hnb
    · intro i n hi hn
      constructor
      · show i * ns + n < (List.replicate (nb * ns) false).length
        rw [List.length_replicate]
        exact bucket_slot_lt _ _ _ _ hi hn
      · show (i * ns + n) * nf + nf ≤ (List.replicate (nb * ns * nf) 0).length
        rw [List.length_replicate]
        exact slot_bytes_le _ _ _ _ (bucket_slot_lt _ _ _ _ hi hn)
    · intro x
      show ceilSqrt nb + nf ≤ (hash x).length
      rw [hhash x]
      have hE := hhash []
      omega
    · intro r
      exact Nat.mod_lt _ hns

/-- C2 amended: on a power-of-two table, a true `Insert` is immediately
visible: `Lookup` of the same item, before any other mutation, returns true.
(The counterexample shows this fails for non-power-of-two bucket counts.) -/
theorem insert_then_lookup_pow2 (gt : GokooTable) (k : Nat) (item rands : List Nat)
    (hWF : WF gt) (hpow : gt.nBuckets = 2 ^ k)
    (hlen : gt.iBytes + gt.nBytes ≤ (gt.hash item).length)
    (hIns : (Insert gt item rands).1 = true) :
    Lookup (Insert gt item rands).2 item = true := by
  obtain ⟨hcfg, hWF2, hpres⟩ := insert_true_present gt k item rands hWF hpow hlen hIns
  obtain ⟨e1, e2, e3⟩ := item_eqs_of_sameConfig gt (Insert gt item rands).2 item hcfg
  apply lookup_true_of_present
  rw [e1, e2, e3]
  exact hpres

/-- Witness for `insert_then_lookup_pow2` on a concrete 8-bucket table. -/
theorem insert_then_lookup_pow2_witness :
    WF cexT8 ∧ cexT8.nBuckets = 2 ^ 3 ∧
    cexT8.iBytes + cexT8.nBytes ≤ (cexT8.hash [0, 0, 0, 7]).length ∧
    (Insert cexT8 [0, 0, 0, 7] []).1 = true ∧
    Lookup (Insert cexT8 [0, 0, 0, 7] []).2 [0, 0, 0, 7] = true :=
  ⟨by constructor <;> simp [cexT8, WF], rfl, by decide, rfl,
    insert_then_lookup_pow2 cexT8 3 [0, 0, 0, 7] []
      (by constructor <;> simp [cexT8, WF]) rfl (by decide) rfl⟩

/-- C3 amended: on a power-of-two table, after a true `Insert` the immediate
`Remove` returns true; and when the insert left exactly one occurrence of the
item's fingerprint in its candidate buckets (no collision with another
still-present occurrence), the subsequent `Lookup` returns false. -/
theorem insert_remove_lookup_pow2 (gt : GokooTable) (k : Nat) (item rands : List Nat)
    (hWF : WF gt) (hpow : gt.nBuckets = 2 ^ k)
    (hlen : gt.iBytes + gt.nBytes ≤ (gt.hash item).length)
    (hIns : (Insert gt item rands).1 = true) :
    (Remove (Insert gt item rands).2 item).1 = true ∧
    (candCount (Insert gt item rands).2 item = 1 →
      Lookup (Remove (Insert gt item rands).2 item).2 item = false) := by
  obtain ⟨hcfg, hWF2, hpres⟩ := insert_true_present gt k item rands hWF hpow hlen hIns
  obtain ⟨e1, e2, e3⟩ := item_eqs_of_sameConfig gt (Insert gt item rands).2 item hcfg
  have hpos : 0 < candCount (Insert gt item rands).2 item := by
    unfold candCount
    rw [e1, e2, e3]
    by_cases hpq : itemI2 gt item = itemI1 gt item
    · rw [if_pos hpq]
      rcases hpres with h | h
      · exact (fpCount_pos_iff _ _ _).mpr h
      · rw [hpq] at h
        exact (fpCount_pos_iff _ _ _).mpr h
    · rw [if_neg hpq]
      rcases hpres with h | h
      · have := (fpCount_pos_iff _ _ _).mpr h
        omega
      · have := (fpCount_pos_iff _ _ _).mpr h
        omega
  obtain ⟨hR1, hcfgR, hWFR, hcand, hocc, htot⟩ :=
    remove_spec (Insert gt item rands).2 item hWF2 hpos
  refine ⟨hR1, ?_⟩
  intro hone
  have hz : candCount (Remove (Insert gt item rands).2 item).2 item = 0 := by omega
  cases hL : Lookup (Remove (Insert gt item rands).2 item).2 item
  · rfl
  · have := (lookup_iff_cand _ _).mp hL
    omega

/-- Witness for `insert_remove_lookup_pow2` on a concrete 8-bucket table. -/
theorem insert_remove_lookup_pow2_witness :
    WF cexT8 ∧ cexT8.nBuckets = 2 ^ 3 ∧
    cexT8.iBytes + cexT8.nBytes ≤ (cexT8.hash [0, 0, 0, 7]).length ∧
    (Insert cexT8 [0, 0, 0, 7] []).1 = true ∧
    candCount (Insert cexT8 [0, 0, 0, 7] []).2 [0, 0, 0, 7] = 1 ∧
    (Remove (Insert cexT8 [0, 0, 0, 7] []).2 [0, 0, 0, 7]).1 = true ∧
    Lookup (Remove (Insert cexT8 [0, 0, 0, 7] []).2 [0, 0, 0, 7]).2 [0, 0, 0, 7] = false :=
  ⟨by constructor <;> simp [cexT8, WF], rfl, by decide, rfl, by decide,
    (insert_remove_lookup_pow2 cexT8 3 [0, 0, 0, 7] []
      (by constructor <;> simp [cexT8, WF]) rfl (by decide) rfl).1,
    (insert_remove_lookup_pow2 cexT8 3 [0, 0, 0, 7] []
      (by constructor <;> simp [cexT8, WF]) rfl (by decide) rfl).2 (by decide)⟩

/-- C10: `Insert` does not check for prior presence, so inserting the same
item twice (both placed by a direct `add`, no eviction) stores two copies of
its fingerprint; one `Remove` then returns true and clears exactly one slot,
and the following `Lookup` still returns true. -/
theorem duplicate_insert_semantics (gt : GokooTable) (item rands1 rands2 : List Nat)
    (hWF : WF gt) (hlen : gt.iBytes + gt.nBytes ≤ (gt.hash item).length)
    (h1 : (add gt (itemI1 gt item) (itemFp gt item)).1 = true ∨
          (add gt (itemI2 gt item) (itemFp gt item)).1 = true)
    (h2 : (add (Insert gt item rands1).2 (itemI1 (Insert gt item rands1).2 item)
            (itemFp (Insert gt item rands1).2 item)).1 = true ∨
          (add (Insert gt item rands1).2 (itemI2 (Insert gt item rands1).2 item)
            (itemFp (Insert gt item rands1).2 item)).1 = true) :
    (Insert gt item rands1).1 = true ∧
    (Insert (Insert gt item rands1).2 item rands2).1 = true ∧
    totalCount (Insert (Insert gt item rands1).2 item rands2).2 (itemFp gt item)
      = totalCount gt (itemFp gt item) + 2 ∧
    (Remove (Insert (Insert gt item rands1).2 item rands2).2 item).1 = true ∧
    occCount (Remove (Insert (Insert gt item rands1).2 item rands2).2 item).2 + 1
      = occCount (Insert (Insert gt item rands1).2 item rands2).2 ∧
    Lookup (Remove (Insert (Insert gt item rands1).2 item rands2).2 item).2 item
      = true := by
  obtain ⟨i1T, icfg1, iWF1, icand1, iocc1, itot1⟩ :=
    insert_noevict_spec gt item rands1 hWF hlen h1
  obtain ⟨e1, e2, e3⟩ := item_eqs_of_sameConfig gt (Insert gt item rands1).2 item icfg1
  have hlen2 : (Insert gt item rands1).2.iBytes + (Insert gt item rands1).2.nBytes
      ≤ ((Insert gt item rands1).2.hash item).length := by
    rw [← icfg1.2.2.2.2.1, ← icfg1.2.2.1, ← icfg1.2.2.2.2.2.1]
    exact hlen
  obtain ⟨i2T, icfg2, iWF2, icand2, iocc2, itot2⟩ :=
    insert_noevict_spec (Insert gt item rands1).2 item rands2 iWF1 hlen2 h2
  rw [e3] at itot2
  have hcand2 : candCount (Insert (Insert gt item rands1).2 item rands2).2 item
      = candCount gt item + 2 := by
    rw [icand2, icand1]
  have hpos : 0 < candCount (Insert (Insert gt item rands1).2 item rands2).2 item := by
    omega
  obtain ⟨rT, rcfg, rWF, rcand, rocc, rtot⟩ :=
    remove_spec (Insert (Insert gt item rands1).2 item rands2).2 item iWF2 hpos
  refine ⟨i1T, i2T, ?_, rT, rocc, ?_⟩
  · rw [itot2, itot1]
  · rw [lookup_iff_cand]
    omega

/-- Witness for `duplicate_insert_semantics`: the same item inserted twice
into the empty 8-bucket table (first into its primary bucket, then into its
secondary bucket), removed once, still looked up. -/
theorem duplicate_insert_semantics_witness :
    WF cexT8 ∧ cexT8.iBytes + cexT8.nBytes ≤ (cexT8.hash [0, 0, 0, 7]).length ∧
    (add cexT8 (itemI1 cexT8 [0, 0, 0, 7]) (itemFp cexT8 [0, 0, 0, 7])).1 = true ∧
    (add (Insert cexT8 [0, 0, 0, 7] []).2
      (itemI2 (Insert cexT8 [0, 0, 0, 7] []).2 [0, 0, 0, 7])
      (itemFp (Insert cexT8 [0, 0, 0, 7] []).2 [0, 0, 0, 7])).1 = true ∧
    Lookup (Remove (Insert (Insert cexT8 [0, 0, 0, 7] []).2 [0, 0, 0, 7] []).2
      [0, 0, 0, 7]).2 [0, 0, 0, 7] = true :=
  ⟨by constructor <;> simp [cexT8, WF], by decide, by decide, by decide,
    (duplicate_insert_semantics cexT8 [0, 0, 0, 7] [] []
      (by constructor <;> simp [cexT8, WF]) (by decide)
      (Or.inl (by decide)) (Or.inr (by decide))).2.2.2.2.2⟩

/-- C4 amended: when `Insert` exhausts all tries and returns false, the
fingerprint the eviction chain was carrying at the end (reported by the
instrumented `InsertD`, which computes exactly `Insert`) is dropped and every
other occurrence is preserved: the final table stores, for every fingerprint
value, the initial occurrences plus the newly inserted item's fingerprint
minus the dropped one. The newly inserted item's fingerprint remains placed
exactly when it is not itself the dropped fingerprint. -/
theorem insert_failure_drops_last (gt : GokooTable) (item rands : List Nat)
    (hWF : WF gt)
    (hlen : gt.iBytes + gt.nBytes ≤ (gt.hash item).length)
    (hFail : (Insert gt item rands).1 = false) :
    (InsertD gt item rands).1 = Insert gt item rands ∧
    ∀ g, totalCount (Insert gt item rands).2 g
          + (if (InsertD gt item rands).2 = g then 1 else 0)
        = totalCount gt g + (if itemFp gt item = g then 1 else 0) := by
  refine ⟨InsertD_fst_eq gt item rands, ?_⟩
  intro g
  have hWFc := hWF
  obtain ⟨w1, w2, w3, w4, w5⟩ := hWFc
  have hfLen : (itemFp gt item).length = gt.nBytes := fingerPrint_length _ _ hlen
  rw [Insert_eq] at hFail
  rw [Insert_eq, InsertD_eq]
  rcases (Bool.eq_false_or_eq_true (add gt (itemI1 gt item) (itemFp gt item)).1).symm
    with ha1 | ha1
  · have hne1 : ¬ (add gt (itemI1 gt item) (itemFp gt item)).1 = true := by
      rw [ha1]; exact Bool.false_ne_true
    rw [if_neg hne1] at hFail
    rw [if_neg hne1, if_neg hne1]
    have he1 := (add_false_spec _ _ _ ha1).1
    have hFull1 := (add_false_spec _ _ _ ha1).2
    rw [he1] at hFail ⊢
    rcases (Bool.eq_false_or_eq_true
        (add gt (secondaryIndex gt (itemI1 gt item) (itemFp gt item))
          (itemFp gt item)).1).symm with ha2 | ha2
    · have hne2 : ¬ (add gt (secondaryIndex gt (itemI1 gt item) (itemFp gt item))
          (itemFp gt item)).1 = true := by
        rw [ha2]; exact Bool.false_ne_true
      rw [if_neg hne2] at hFail
      rw [if_neg hne2, if_neg hne2]
      have he2 := (add_false_spec _ _ _ ha2).1
      have hFull2 := (add_false_spec _ _ _ ha2).2
      rw [he2] at hFail ⊢
      rw [← insertLoopD_fst_eq] at hFail ⊢
      by_cases hcoin : rands.headD 0 % 2 = 1
      · rw [if_pos hcoin] at hFail ⊢
        exact (insertLoopD_counts gt.nTries gt
          (secondaryIndex gt (itemI1 gt item) (itemFp gt item)) (itemFp gt item)
          rands.tail hWF hfLen (secondaryIndex_lt _ _ _ w3) hFull2 hFail).2.2.2 g
      · rw [if_neg hcoin] at hFail ⊢
        exact (insertLoopD_counts gt.nTries gt (itemI1 gt item) (itemFp gt item)
          rands.tail hWF hfLen (primaryIndex_lt _ _ w3) hFull1 hFail).2.2.2 g
    · rw [if_pos ha2] at hFail
      simp at hFail
  · rw [if_pos ha1] at hFail
    simp at hFail

/-- Witness for `insert_failure_drops_last`: the failing insertion of
`[0,0,0,0]` into the prepared 8-bucket table, evaluated at the fingerprint
`[0]` of the inserted item (which here is also the dropped fingerprint). -/
theorem insert_failure_drops_last_witness :
    WF cexS8 ∧
    cexS8.iBytes + cexS8.nBytes ≤ (cexS8.hash [0, 0, 0, 0]).length ∧
    (Insert cexS8 [0, 0, 0, 0] [1, 0, 0]).1 = false ∧
    totalCount (Insert cexS8 [0, 0, 0, 0] [1, 0, 0]).2 [0]
        + (if (InsertD cexS8 [0, 0, 0, 0] [1, 0, 0]).2 = [0] then 1 else 0)
      = totalCount cexS8 [0] + (if itemFp cexS8 [0, 0, 0, 0] = [0] then 1 else 0) :=
  ⟨⟨by decide, by decide, by decide, by decide, by decide⟩, by decide, by decide,
    (insert_failure_drops_last cexS8 [0, 0, 0, 0] [1, 0, 0]
      ⟨by decide, by decide, by decide, by decide, by decide⟩
      (by decide) (by decide)).2 [0]⟩

/-- Witness for `access_in_bounds` on a concrete table. -/
theorem access_in_bounds_witness :
    New dummyHash 3 1 1 512 = some cexT3 ∧
    primaryIndex cexT3 [7, 7, 7] < cexT3.nBuckets :=
  ⟨rfl, (access_in_bounds dummyHash 3 1 1 512 8 cexT3 rfl (by decide) (by decide)
    (by decide) dummyHash_length).1 [7, 7, 7]⟩

end Gokoo
